import Mathlib

/-!
Verification of the elodie media-import pipeline (manifest-driven import:
checksum engine, path-pattern resolver, manifest store, import orchestrator).

The Python sources are shallowly embedded: Python strings are `List Char`,
Python dicts holding JSON data are association lists inside an inductive
`Json` type, the on-disk filesystem is an association list from paths to
byte contents, and the mutable `FileSystem` instance state (the compiled
pattern cache) is threaded explicitly.  Python exceptions are `Except`
errors.  External collaborators (the `time.strftime` formatter, the EXIF
metadata extractor, the media-type classifier) are parameters of the
embedded functions, exactly where the source code calls out to them.
-/

set_option autoImplicit false

namespace Elodie

/-- Python strings are modelled as lists of characters. -/
abbrev Str := List Char

/-- Python exceptions that the embedded code can raise. -/
inductive PyError where
  /-- `raise Exception(...)` (bad folder path definition). -/
  | exceptionRaised
  /-- `TypeError` (calling a function with arguments its signature rejects,
  or `os.path.join()` with no components). -/
  | typeError
  /-- I/O error such as `FileNotFoundError` when reading a missing file. -/
  | ioError
  /-- `KeyError` (indexing a dict at a missing key). -/
  | keyError
  deriving DecidableEq, Repr

/-! ## Basic string helpers (Python `str` methods on `List Char`) -/

/-- Split a list on a separator character; mirrors Python `str.split(sep)`,
which always returns at least one (possibly empty) piece. -/
def splitOnChar (sep : Char) : Str → List Str
  | [] => [[]]
  | c :: cs =>
    let rest := splitOnChar sep cs
    if c = sep then [] :: rest
    else
      match rest with
      | [] => [[c]]
      | r :: rs => (c :: r) :: rs

/-- Python `str.lower()` for ASCII characters. -/
def lowerChar (c : Char) : Char :=
  if 65 ≤ c.toNat ∧ c.toNat ≤ 90 then Char.ofNat (c.toNat + 32) else c

/-- Python `str.lower()` on a whole string. -/
def toLowerStr (s : Str) : Str := s.map lowerChar

/-- Characters stripped by Python `str.strip()` with no argument. -/
def isPySpace (c : Char) : Bool :=
  c = ' ' ∨ c = '\t' ∨ c = '\n' ∨ c = '\x0b' ∨ c = '\x0c' ∨ c = '\r'

/-- Python `str.strip()`. -/
def pyStrip (s : Str) : Str :=
  ((s.dropWhile isPySpace).reverse.dropWhile isPySpace).reverse

/-- Python `\w` for ASCII: letters, digits and underscore. -/
def isWordChar (c : Char) : Bool := c.isAlphanum ∨ c = '_'

/-- Helper for `subNonWord`: the flag records whether the previous input
character was part of a non-word run whose hyphen is already emitted. -/
def subNonWordAux : Bool → Str → Str
  | _, [] => []
  | inRun, c :: cs =>
    if isWordChar c then c :: subNonWordAux false cs
    else if inRun then subNonWordAux true cs
    else '-' :: subNonWordAux true cs

/-- `re.sub('\W+', '-', s)`: every maximal run of non-word characters is
replaced by a single hyphen. -/
def subNonWord (s : Str) : Str := subNonWordAux false s

/-- Helper for `replaceAllCons`, structurally recursive on a fuel that each
step strictly decreases while consuming at least one input character; with
fuel at least the input length it performs the full one-pass replacement. -/
def replaceAllFuel (p0 : Char) (ps : Str) : Nat → Str → Str
  | _, [] => []
  | 0, s => s
  | fuel + 1, c :: cs =>
    if (p0 :: ps).isPrefixOf (c :: cs) then replaceAllFuel p0 ps fuel (cs.drop ps.length)
    else c :: replaceAllFuel p0 ps fuel cs

/-- Python `str.replace(pat, '')` for a non-empty pattern `p0 :: ps`:
one left-to-right pass deleting every non-overlapping occurrence. -/
def replaceAllCons (p0 : Char) (ps : Str) (s : Str) : Str :=
  replaceAllFuel p0 ps s.length s

/-- Index (from the front) of the last character satisfying `p`, if any. -/
def rlastIdx (p : Char → Bool) : Str → Option Nat
  | [] => none
  | c :: cs =>
    match rlastIdx p cs with
    | some i => some (i + 1)
    | none => if p c then some 0 else none

/-- `os.path.splitext`: split off the extension at the last dot of the base
name, treating a base name consisting only of leading dots as having no
extension.  Returns `(root, ext)` with `root ++ ext = p`. -/
def splitext (p : Str) : Str × Str :=
  match rlastIdx (fun c => c = '.') p with
  | none => (p, [])
  | some dotIdx =>
    let start :=
      match rlastIdx (fun c => c = '/') p with
      | none => 0
      | some sepIdx => sepIdx + 1
    if start < dotIdx ∧ ((p.drop start).take (dotIdx - start)).any (fun c => ¬ c = '.') then
      (p.take dotIdx, p.drop dotIdx)
    else if start < dotIdx then (p, [])
    else if dotIdx < start then (p, [])
    else (p, [])

/-- `posixpath.join` of two components. -/
def pathJoin2 (a b : Str) : Str :=
  if b.head? = some '/' then b
  else if a = [] ∨ a.getLast? = some '/' then a ++ b
  else a ++ '/' :: b

/-- `os.path.join(a, *rest)`. -/
def pathJoinList (a : Str) (rest : List Str) : Str := rest.foldl pathJoin2 a

/-- `os.path.join(*parts)`: `TypeError` when `parts` is empty. -/
def pathJoinAll : List Str → Option Str
  | [] => none
  | p :: rest => some (pathJoinList p rest)

/-- `os.path.split`: split at the final slash. -/
def osPathSplit (p : Str) : Str × Str :=
  match rlastIdx (fun c => c = '/') p with
  | none => ([], p)
  | some i => (p.take (i + 1), p.drop (i + 1))

end Elodie

namespace Elodie

/-! ## Media metadata (the mapping produced by the external extractor) -/

/-- `time.struct_time` values are opaque to the embedded code: it only tests
them against `None` and hands them to `time.strftime`. -/
abbrev TimeStruct := Nat

/-- The metadata mapping consumed by `FileSystem.get_folder_path` and
`FileSystem.get_file_name` (produced by the out-of-scope media extractor). -/
structure Metadata where
  date_taken : Option TimeStruct
  album : Option Str
  camera_make : Option Str
  camera_model : Option Str
  origin : Option Str
  city : Option Str
  title : Option Str
  base_name : Str
  original_name : Option Str
  extension : Str
  deriving DecidableEq, Repr

/-- `metadata[part]` for the direct-field names dispatched dynamically in
`get_folder_path` (`album`, `camera_make`, `camera_model`, `origin`). -/
def Metadata.getField (m : Metadata) (name : Str) : Option Str :=
  if name = "album".toList then m.album
  else if name = "camera_make".toList then m.camera_make
  else if name = "camera_model".toList then m.camera_model
  else if name = "origin".toList then m.origin
  else none

/-- Python truthiness of an optional string (`None` and `''` are falsy). -/
def truthy : Option Str → Bool
  | none => false
  | some s => ¬ s = []

/-! ## Path pattern resolver (`FileSystem.get_folder_path_definition`,
`FileSystem.get_folder_path` in elodie/filesystem.py) -/

/-- One path segment: an ordered list of `(part, mask)` fallback
alternatives, as built by `get_folder_path_definition`. -/
abbrev Alt := Str × Str

/-- A compiled folder path definition: one alternative list per segment. -/
abbrev PathDef := List (List Alt)

/-- `self.default_parts` from `FileSystem.__init__`. -/
def defaultParts : List Str :=
  ["album", "city", "state", "country", "origin"].map String.toList

/-- `re.findall('(\%[^/]+)', pattern)`: within each slash-separated piece, the
match starts at the first percent sign and runs to the end of the piece, and
needs at least one character after the percent. -/
def findPathParts (pattern : Str) : List Str :=
  (splitOnChar '/' pattern).filterMap fun piece =>
    let t := piece.dropWhile (fun c => ¬ c = '%')
    if 2 ≤ t.length then some t else none

/-- `part.replace('%', '')`. -/
def stripPercent (s : Str) : Str := s.filter (fun c => ¬ c = '%')

/-- The pattern-compilation body of `get_folder_path_definition` (the part
after the cache check): raises when the pattern has no `%`-parts, otherwise
builds one fallback list per part. -/
def compilePattern (pattern : Str) : Except PyError PathDef :=
  let parts := findPathParts pattern
  if parts.isEmpty then .error .exceptionRaised
  else .ok <| parts.map fun part =>
    let p := stripPercent part
    if defaultParts.contains p then [(p, [])]
    else (splitOnChar '|' p).map fun q => (q, '%' :: q)

/-- The mutable state of a `FileSystem` instance: the single-slot compiled
pattern cache (`self.cached_folder_path_definition`). -/
structure FileSystemState where
  cached_folder_path_definition : Option PathDef
  deriving DecidableEq, Repr

/-- A freshly constructed `FileSystem()`. -/
def freshFS : FileSystemState := ⟨none⟩

/-- `FileSystem.get_folder_path_definition(pattern)`: returns the cached
definition when one is present (whatever pattern produced it), otherwise
compiles `pattern` and caches the result. -/
def getFolderPathDefinition (s : FileSystemState) (pattern : Str) :
    FileSystemState × Except PyError PathDef :=
  match s.cached_folder_path_definition with
  | some d => (s, .ok d)
  | none =>
    match compilePattern pattern with
    | .ok d => (⟨some d⟩, .ok d)
    | .error e => (s, .error e)

/-- Temporal part names recognized by `get_folder_path`. -/
def temporalNames : List Str :=
  ["date", "day", "month", "year", "Y", "m", "d"].map String.toList

/-- Direct metadata part names recognized by `get_folder_path`. -/
def directNames : List Str :=
  ["album", "camera_make", "camera_model", "origin"].map String.toList

/-- Whether an alternative name is a quoted literal (`part.startswith('"')
and part.endswith('"')`). -/
def isQuoted (part : Str) : Bool :=
  part.head? = some '"' ∧ part.getLast? = some '"'

/-- `part[1:-1]`. -/
def dequote (part : Str) : Str := (part.drop 1).dropLast

/-- The inner alternative loop of `get_folder_path` for one segment.  The
flag is the `flag_undated` guard.  A temporal alternative always `break`s;
a direct-field alternative `break`s only when its value is truthy; a quoted
literal appends its body and (there being no `break` in that branch)
evaluation continues with the remaining alternatives. -/
def evalAlts (strftime : Str → TimeStruct → Str) (m : Metadata) :
    List Alt → Bool → List Str × Bool
  | [], flag => ([], flag)
  | (part, mask) :: rest, flag =>
    if temporalNames.contains part then
      match m.date_taken with
      | some t => ([strftime mask t], flag)
      | none => if flag then ([], true) else (["undated".toList], true)
    else if directNames.contains part then
      match m.getField part with
      | some v => if ¬ v = [] then ([v], flag) else evalAlts strftime m rest flag
      | none => evalAlts strftime m rest flag
    else if isQuoted part then
      let (res, flag') := evalAlts strftime m rest flag
      (dequote part :: res, flag')
    else evalAlts strftime m rest flag

/-- The outer segment loop of `get_folder_path`, threading `flag_undated`. -/
def evalSegments (strftime : Str → TimeStruct → Str) (m : Metadata) :
    PathDef → Bool → List Str × Bool
  | [], flag => ([], flag)
  | seg :: rest, flag =>
    let (r, flag') := evalAlts strftime m seg flag
    let (rs, flag'') := evalSegments strftime m rest flag'
    (r ++ rs, flag'')

/-- The list of path components accumulated by `get_folder_path` before the
final `os.path.join(*path)`. -/
def folderPathParts (strftime : Str → TimeStruct → Str) (defn : PathDef) (m : Metadata) :
    List Str :=
  (evalSegments strftime m defn false).1

/-- The import target configuration record (`config["targets"][0]`). -/
structure Target where
  base_path : Str
  file_path_pattern : Str
  deriving DecidableEq, Repr

/-- `FileSystem.get_folder_path(metadata, target_config)`: resolve the
cached-or-compiled definition of the target's pattern against the metadata
and join the resulting components (`os.path.join(*path)` raises `TypeError`
on an empty component list). -/
def getFolderPath (strftime : Str → TimeStruct → Str) (s : FileSystemState)
    (m : Metadata) (target : Target) : FileSystemState × Except PyError Str :=
  match getFolderPathDefinition s target.file_path_pattern with
  | (s', .error e) => (s', .error e)
  | (s', .ok defn) =>
    match pathJoinAll (folderPathParts strftime defn m) with
    | some p => (s', .ok p)
    | none => (s', .error .typeError)

/-- A metadata record with every optional field absent; concrete records in
the theorems below override individual fields. -/
def emptyMetadata : Metadata :=
  { date_taken := none, album := none, camera_make := none, camera_model := none,
    origin := none, city := none, title := none, base_name := [],
    original_name := none, extension := [] }

/-! ## File-name derivation (`FileSystem.get_file_name`) -/

/-- Whether a string starts with the date-stamp pattern
`\d{4}-\d{2}-\d{2}_\d{2}-\d{2}-\d{2}-` that `get_file_name` strips and
`set_utime_from_metadata` matches. -/
def matchesDateStamp : Str → Bool
  | a1 :: a2 :: a3 :: a4 :: s1 :: b1 :: b2 :: s2 :: c1 :: c2 :: s3 :: d1 :: d2 ::
      s4 :: e1 :: e2 :: s5 :: f1 :: f2 :: s6 :: _ =>
    a1.isDigit && a2.isDigit && a3.isDigit && a4.isDigit && s1 = '-' &&
    b1.isDigit && b2.isDigit && s2 = '-' && c1.isDigit && c2.isDigit &&
    s3 = '_' && d1.isDigit && d2.isDigit && s4 = '-' && e1.isDigit &&
    e2.isDigit && s5 = '-' && f1.isDigit && f2.isDigit && s6 = '-'
  | _ => false

/-- `re.sub('^\d{4}-\d{2}-\d{2}_\d{2}-\d{2}-\d{2}-', '', s)`: the anchored
pattern matches at most once, at the start. -/
def stripDateStamp (s : Str) : Str := if matchesDateStamp s then s.drop 20 else s

/-- The `base_name` selection of `get_file_name`: prefer a truthy
`original_name` (sans extension); otherwise strip the date-stamp prefix
from `base_name`, falling back to the untouched `base_name` when stripping
empties it. -/
def baseNameOf (m : Metadata) : Str :=
  let fromBase :=
    let b := stripDateStamp m.base_name
    if b.length = 0 then m.base_name else b
  match m.original_name with
  | some orig => if ¬ orig = [] then (splitext orig).1 else fromBase
  | none => fromBase

/-- The truthy-title guard of `get_file_name`. -/
def hasTitle (m : Metadata) : Bool :=
  match m.title with
  | some t => ¬ t = []
  | none => false

/-- `FileSystem.get_file_name(metadata, target_config)` for a non-`None`
metadata record.  `fmtDT` is `time.strftime('%Y-%m-%d_%H-%M-%S', ·)`
(external `time` library). -/
def getFileNameCore (fmtDT : TimeStruct → Str) (m : Metadata) : Str :=
  let base0 := baseNameOf m
  let base :=
    if hasTitle m then
      let ts := subNonWord (pyStrip (m.title.getD []))
      (replaceAllCons '-' ts base0) ++ '-' :: ts
    else base0
  let parts :=
    (match m.date_taken with
     | some t => [fmtDT t]
     | none => [])
    ++ (match m.origin with
        | some o => [o]
        | none =>
          match m.camera_model with
          | some c => [c]
          | none => [])
  toLowerStr (List.intercalate ['-'] (parts ++ [base]) ++ '.' :: m.extension)

/-- `FileSystem.get_file_name`, including the `metadata is None` guard. -/
def getFileName (fmtDT : TimeStruct → Str) : Option Metadata → Option Str
  | none => none
  | some m => some (getFileNameCore fmtDT m)

/-- Applying the same title update a second time: after the file has been
renamed to the first derived name, a re-run reads the same EXIF fields but
a `base_name` taken from the file's current name sans extension.
(`original_name` is absent: when it is present, the derivation ignores
`base_name` entirely and re-application is trivially unchanged.) -/
def retitleFileName (fmtDT : TimeStruct → Str) (m : Metadata) : Option Str :=
  match getFileName fmtDT (some m) with
  | none => none
  | some n1 =>
    getFileName fmtDT (some { m with base_name := (splitext n1).1, original_name := none })

end Elodie

namespace Elodie

/-! ## JSON values and the manifest store (elodie/manifest.py) -/

/-- JSON-like Python values stored in the manifest.  `time` models an opaque
`time.struct_time` and `tup` a Python tuple (`generate_manifest` stores a
one-tuple of a `struct_time` under `date_taken`). -/
inductive Json where
  | null
  | bool (b : Bool)
  | num (n : Int)
  | str (s : Str)
  | arr (xs : List Json)
  | obj (entries : List (Str × Json))
  | time (t : TimeStruct)
  | tup (xs : List Json)

/-- `x is None`. -/
def Json.isNull : Json → Bool
  | .null => true
  | _ => false

/-- Whether a value is the empty dict `{}`. -/
def Json.isEmptyObj : Json → Bool
  | .obj [] => true
  | _ => false

/-- Whether a value is a Python tuple (as opposed to a list). -/
def Json.isTupB : Json → Bool
  | .tup _ => true
  | _ => false

/-- Association-list lookup (first occurrence), modelling `d[k]` / `k in d`
on an insertion-ordered Python dict. -/
def alookup {β : Type} : List (Str × β) → Str → Option β
  | [], _ => none
  | (k, v) :: rest, key => if k = key then some v else alookup rest key

/-- Association-list update `d[k] = v` on an insertion-ordered Python dict:
replace the value in place if the key exists, else append. -/
def aset {β : Type} : List (Str × β) → Str → β → List (Str × β)
  | [], key, val => [(key, val)]
  | (k, v) :: rest, key, val =>
    if k = key then (key, val) :: rest else (k, v) :: aset rest key val

/-- `isinstance(x, collections.Mapping)`: only dicts are mappings. -/
def Json.isMapping : Json → Bool
  | .obj _ => true
  | _ => false

/-- `d.get(k, default)` on a dict (`default` returned on any non-dict). -/
def Json.objGet (d : Json) (k : Str) (dflt : Json) : Json :=
  match d with
  | .obj es => (alookup es k).getD dflt
  | _ => dflt

/-- `d[k] = v` on a dict (identity on any non-dict; only reached on dicts). -/
def Json.objSet (d : Json) (k : Str) (v : Json) : Json :=
  match d with
  | .obj es => .obj (aset es k v)
  | other => other

/-- `d[k]` lookup as an option (`None`-free observation helper). -/
def lookupJ : Json → Str → Option Json
  | .obj es, k => alookup es k
  | _, _ => none

mutual

/-- `deep_merge(d, u)` from elodie/manifest.py.  `u` is a mapping at every
call site (`Manifest.merge` passes a dict and the recursive call is guarded
by `isinstance(v, collections.Mapping)`); a non-mapping `u` would raise in
Python and is mapped to `d` here. -/
def deepMerge : Json → Json → Json
  | .null, u => u
  | d, .obj us => mergeItems d us
  | d, _ => d

/-- The `for k, v in u.items()` loop of `deep_merge`, threading the mutated
`d`.  When `d` is not a mapping the loop body rebinds `d = {k: u[k]}`. -/
def mergeItems : Json → List (Str × Json) → Json
  | d, [] => d
  | d, (k, v) :: rest =>
    mergeItems
      (if d.isMapping then
        (if v.isMapping then d.objSet k (deepMerge (d.objGet k (.obj [])) v)
         else d.objSet k v)
       else .obj [(k, v)])
      rest

end

/-- Keys of an association list are pairwise distinct (true of every dict). -/
def keysNodupB : List (Str × Json) → Bool
  | [] => true
  | (k, _) :: rest => !((rest.map Prod.fst).contains k) && keysNodupB rest

mutual

/-- Well-formedness of a `Json` value as the image of a Python dict tree:
every object level has pairwise-distinct keys. -/
def Json.wfB : Json → Bool
  | .obj es => keysNodupB es && Json.wfListB es
  | _ => true

/-- Well-formedness of all values of an object entry list. -/
def Json.wfListB : List (Str × Json) → Bool
  | [] => true
  | (_, v) :: rest => v.wfB && Json.wfListB rest

end

/-- The per-key merge result described by the amended claim C4: a recursive
merge when both values are mappings; otherwise the incoming value replaces
the existing one, except that an incoming *empty* mapping leaves an
existing non-null, non-mapping value unchanged. -/
def mergedValueSpec (old incoming : Json) : Json :=
  if old.isMapping && incoming.isMapping then deepMerge old incoming
  else if !old.isNull && !old.isMapping && incoming.isEmptyObj then old
  else incoming

/-- The in-memory `Manifest` object: its entry mapping and the file path it
will re-save to. -/
structure ManifestS where
  entries : Json
  file_path : Str

/-- The files the manifest store touches, at the granularity the store uses
them: a file holds the parse of the JSON text last written to it.
`json.dump` (Python standard library) reproduces dicts, lists, strings,
ints, bools and `None` exactly but serializes Python tuples and
`time.struct_time` values as JSON arrays, so the stored value is the
`jsonDump` image of the in-memory value, not always the value itself. -/
abbrev FileStore := List (Str × Json)

/-- `Manifest.load_from_file(file_path)`: create the file with an empty JSON
document when missing, then parse it into `self.entries` (and remember the
path for re-saving). -/
def loadFromFile (store : FileStore) (path : Str) : FileStore × ManifestS :=
  let store' :=
    match alookup store path with
    | some _ => store
    | none => aset store path (.obj [])
  (store', { file_path := path, entries := (alookup store' path).getD (.obj []) })

/-- `Manifest.merge(manifest_entry)`: `self.entries =
deep_merge(self.entries, manifest_entry)`. -/
def mergeManifest (m : ManifestS) (u : List (Str × Json)) : ManifestS :=
  { m with entries := deepMerge m.entries (.obj u) }

mutual

/-- The value `json.load` reads back from the text `json.dump` wrote:
`None`, bools, ints, strings, lists and dicts round-trip exactly, while a
Python tuple and a `time.struct_time` (a 9-field int tuple, its fields read
off by `enc`) are serialized as JSON arrays and come back as lists. -/
def jsonDump (enc : TimeStruct → List Int) : Json → Json
  | .null => .null
  | .bool b => .bool b
  | .num n => .num n
  | .str s => .str s
  | .arr xs => .arr (jsonDumpList enc xs)
  | .tup xs => .arr (jsonDumpList enc xs)
  | .obj es => .obj (jsonDumpEntries enc es)
  | .time t => .arr ((enc t).map Json.num)

/-- `jsonDump` on the elements of an array or tuple. -/
def jsonDumpList (enc : TimeStruct → List Int) : List Json → List Json
  | [] => []
  | x :: xs => jsonDump enc x :: jsonDumpList enc xs

/-- `jsonDump` on the entries of an object. -/
def jsonDumpEntries (enc : TimeStruct → List Int) : List (Str × Json) → List (Str × Json)
  | [] => []
  | (k, v) :: rest => (k, jsonDump enc v) :: jsonDumpEntries enc rest

end

/-- `Manifest.write(indent, overwrite)`: serialize `self.entries` to
`self.file_path` when overwriting, else to a timestamp-suffixed sibling
(`ts` is `datetime.utcnow()` formatted, an external input).  The `indent`
flag only changes the textual layout, not the stored document; what the
file then holds (as parsed by a later `json.load`) is the `jsonDump` image
of the entries under the `struct_time` field reader `enc`.  Returns the
updated store and the written path. -/
def writeManifest (enc : TimeStruct → List Int) (store : FileStore) (m : ManifestS)
    (ts : Str) (_indent overwrite : Bool) : FileStore × Str :=
  let fp := osPathSplit m.file_path
  let ne := splitext fp.2
  let write_path :=
    if overwrite then m.file_path
    else pathJoin2 fp.1 (ne.1 ++ '_' :: ts ++ ne.2)
  (aset store write_path (jsonDump enc m.entries), write_path)

/-- A concrete `struct_time` field reader (the Unix epoch, all nine
`tm_*` fields), used to instantiate the round-trip counterexample. -/
def c9enc : TimeStruct → List Int := fun _ => [1970, 1, 1, 0, 0, 0, 3, 1, 0]

/-- A concrete manifest entry of the shape `generate_manifest` produces:
`date_taken` bound to a one-tuple holding a `struct_time`. -/
def c9entry : List (Str × Json) := [("date_taken".toList, Json.tup [Json.time 0])]

/-- An empty in-memory manifest about to be saved to `manifest.json`. -/
def c9m : ManifestS := { entries := Json.obj [], file_path := "manifest.json".toList }

end Elodie

namespace Elodie

/-! ## On-disk filesystem model -/

/-- File contents as byte lists. -/
abbrev Content := List Nat

/-- The on-disk state: regular files with their contents, plus the set of
directories that exist. -/
structure FS where
  files : List (Str × Content)
  dirs : List Str

/-- `FileSystem.create_directory`: `os.makedirs` unless the path exists;
returns `True` on success (permission errors are not modelled). -/
def createDirectory (fs : FS) (p : Str) : FS × Bool :=
  if (fs.dirs.contains p) || (alookup fs.files p).isSome then (fs, true)
  else ({ fs with dirs := p :: fs.dirs }, true)

/-- `shutil.copy(src, dst)` (only ever called with `src` present). -/
def copyFile (fs : FS) (src dst : Str) : FS :=
  match alookup fs.files src with
  | some c => { fs with files := aset fs.files dst c }
  | none => fs

end Elodie

namespace Elodie

/-! ## Checksum engine (module-level `checksum` in elodie/filesystem.py and
`Manifest.checksum` in elodie/manifest.py)

`hashlib.sha256` is the Python standard library; it is modelled by its
specification: the hasher absorbs the bytes passed to successive `update`
calls and `hexdigest()` is the lowercase-hex SHA-256 (FIPS 180-4) of the
absorbed byte string.  SHA-256 itself is implemented below on `Nat` with
explicit reduction modulo `2 ^ 32`. -/

/-- Truncate to a 32-bit word. -/
def w32 (n : Nat) : Nat := n % 4294967296

/-- Rotate a 32-bit word right by `n`. -/
def rotr32 (n x : Nat) : Nat := w32 (Nat.lor (x >>> n) (x <<< (32 - n)))

/-- FIPS 180-4 `Ch` on 32-bit words. -/
def sha256Ch (x y z : Nat) : Nat :=
  Nat.xor (Nat.land x y) (Nat.land (Nat.xor x 4294967295) z)

/-- FIPS 180-4 `Maj` on 32-bit words. -/
def sha256Maj (x y z : Nat) : Nat :=
  Nat.xor (Nat.xor (Nat.land x y) (Nat.land x z)) (Nat.land y z)

/-- FIPS 180-4 upper-case sigma-0. -/
def bigSigma0 (x : Nat) : Nat :=
  Nat.xor (Nat.xor (rotr32 2 x) (rotr32 13 x)) (rotr32 22 x)

/-- FIPS 180-4 upper-case sigma-1. -/
def bigSigma1 (x : Nat) : Nat :=
  Nat.xor (Nat.xor (rotr32 6 x) (rotr32 11 x)) (rotr32 25 x)

/-- FIPS 180-4 lower-case sigma-0. -/
def smallSigma0 (x : Nat) : Nat :=
  Nat.xor (Nat.xor (rotr32 7 x) (rotr32 18 x)) (x >>> 3)

/-- FIPS 180-4 lower-case sigma-1. -/
def smallSigma1 (x : Nat) : Nat :=
  Nat.xor (Nat.xor (rotr32 17 x) (rotr32 19 x)) (x >>> 10)

/-- The 64 SHA-256 round constants. -/
def sha256K : List Nat :=
  [1116352408, 1899447441, 3049323471, 3921009573, 961987163,
   1508970993, 2453635748, 2870763221, 3624381080, 310598401,
   607225278, 1426881987, 1925078388, 2162078206, 2614888103,
   3248222580, 3835390401, 4022224774, 264347078, 604807628,
   770255983, 1249150122, 1555081692, 1996064986, 2554220882,
   2821834349, 2952996808, 3210313671, 3336571891, 3584528711,
   113926993, 338241895, 666307205, 773529912, 1294757372,
   1396182291, 1695183700, 1986661051, 2177026350, 2456956037,
   2730485921, 2820302411, 3259730800, 3345764771, 3516065817,
   3600352804, 4094571909, 275423344, 430227734, 506948616,
   659060556, 883997877, 958139571, 1322822218, 1537002063,
   1747873779, 1955562222, 2024104815, 2227730452, 2361852424,
   2428436474, 2756734187, 3204031479, 3329325298]

/-- The SHA-256 initial hash value. -/
def sha256H0 : List Nat :=
  [1779033703, 3144134277, 1013904242, 2773480762, 1359893119,
   2600822924, 528734635, 1541459225]

/-- SHA-256 padding: `0x80`, zeros to 56 mod 64, 8-byte big-endian bit
length.  Input entries are reduced mod 256 to bytes first. -/
def sha256Pad (msg : List Nat) : List Nat :=
  let bytes := msg.map (fun b => b % 256)
  let len := bytes.length
  let lenBits := 8 * len
  let r := (len + 1) % 64
  let z := (120 - r) % 64
  bytes ++ 128 :: List.replicate z 0 ++
    [(lenBits >>> 56) % 256, (lenBits >>> 48) % 256,
     (lenBits >>> 40) % 256, (lenBits >>> 32) % 256,
     (lenBits >>> 24) % 256, (lenBits >>> 16) % 256,
     (lenBits >>> 8) % 256, lenBits % 256]

/-- Big-endian bytes to 32-bit words (input length a multiple of 4). -/
def toWordsBE : List Nat → List Nat
  | b0 :: b1 :: b2 :: b3 :: rest =>
    (((b0 * 256 + b1) * 256 + b2) * 256 + b3) :: toWordsBE rest
  | _ => []

/-- Extend the (reversed) message schedule by `n` further words. -/
def sha256Extend : Nat → List Nat → List Nat
  | 0, acc => acc
  | n + 1, acc =>
    let w2 := acc.getD 1 0
    let w7 := acc.getD 6 0
    let w15 := acc.getD 14 0
    let w16 := acc.getD 15 0
    sha256Extend n (w32 (smallSigma1 w2 + w7 + smallSigma0 w15 + w16) :: acc)

/-- One SHA-256 round on the eight working variables. -/
def sha256Round (s : List Nat) (kw : Nat × Nat) : List Nat :=
  match s with
  | [a, b, c, d, e, f, g, h] =>
    let t1 := w32 (h + bigSigma1 e + sha256Ch e f g + kw.1 + kw.2)
    let t2 := w32 (bigSigma0 a + sha256Maj a b c)
    [w32 (t1 + t2), a, b, c, w32 (d + t1), e, f, g]
  | other => other

/-- Process one 64-byte block. -/
def sha256Block (hs : List Nat) (block : List Nat) : List Nat :=
  let ws := (sha256Extend 48 (toWordsBE block).reverse).reverse
  let out := (sha256K.zip ws).foldl sha256Round hs
  List.zipWith (fun x y => w32 (x + y)) hs out

/-- Helper for `chunksOf`, structurally recursive on a fuel that bounds the
number of reads; each read consumes at least one byte, so fuel equal to the
input length is always enough. -/
def chunksOfFuel (bs : Nat) : Nat → List Nat → List (List Nat)
  | _, [] => []
  | 0, _ :: _ => []
  | fuel + 1, x :: xs =>
    if bs = 0 then []
    else (x :: xs).take bs :: chunksOfFuel bs fuel ((x :: xs).drop bs)

/-- Split into chunks of `bs` (the successive non-empty `f.read(bs)`
results; a zero block size yields no chunks, as `f.read(0)` is empty and
ends the read loop at once). -/
def chunksOf (bs : Nat) (l : List Nat) : List (List Nat) :=
  chunksOfFuel bs l.length l

/-- The SHA-256 state after absorbing a whole message. -/
def sha256Words (msg : List Nat) : List Nat :=
  (chunksOf 64 (sha256Pad msg)).foldl sha256Block sha256H0

/-- A lowercase hexadecimal digit. -/
def hexDigitChar (n : Nat) : Char :=
  if n < 10 then Char.ofNat (48 + n) else Char.ofNat (87 + n)

/-- Eight lowercase hex characters of a 32-bit word. -/
def wordToHex (w : Nat) : Str :=
  [hexDigitChar ((w >>> 28) % 16), hexDigitChar ((w >>> 24) % 16),
   hexDigitChar ((w >>> 20) % 16), hexDigitChar ((w >>> 16) % 16),
   hexDigitChar ((w >>> 12) % 16), hexDigitChar ((w >>> 8) % 16),
   hexDigitChar ((w >>> 4) % 16), hexDigitChar (w % 16)]

/-- `hashlib.sha256(data).hexdigest()`: the lowercase SHA-256 hex digest. -/
def sha256hex (msg : List Nat) : Str := ((sha256Words msg).map wordToHex).flatten

/-- The module-level `checksum(file_path, blocksize)` of
elodie/filesystem.py applied to a file whose byte content is `content`:
feed the successive `f.read(blocksize)` chunks to one hasher and return
its hex digest. -/
def filesystemChecksum (content : List Nat) (blocksize : Nat) : Str :=
  sha256hex ((chunksOf blocksize content).foldl (fun h buf => h ++ buf) [])

/-- `Manifest.checksum(file_path, blocksize)` of elodie/manifest.py — the
same blockwise loop, duplicated verbatim in the source. -/
def manifestChecksum (content : List Nat) (blocksize : Nat) : Str :=
  sha256hex ((chunksOf blocksize content).foldl (fun h buf => h ++ buf) [])

/-- `checksum(path)` on the modelled disk: digest of the file's content at
the default 64 KiB block size, `None`-free (a missing file raises). -/
def fileChecksum (fs : FS) (p : Str) : Option Str :=
  (alookup fs.files p).map (fun c => filesystemChecksum c 65536)

end Elodie

namespace Elodie

/-! ## Placement (`FileSystem.execute_manifest`) and the import
orchestrator (`import_file` in elodie.py) -/

/-- `FileSystem.execute_manifest(source_path, manifest_entry, base_path)`:
if a file already occupies the destination, compare checksums — identical
content is a logged no-op success, divergent content is copied alongside
under a checksum-suffixed name; otherwise create the destination directory
and copy the source there.  A missing source with an occupied destination
raises when `checksum(source_path)` opens the file; a missing source with a
free destination logs and falls through, returning Python `None`. -/
def executeManifest (fs : FS) (source_path : Str) (manifest_entry : Json)
    (base_path : Str) : Except PyError (FS × Option Bool) :=
  match lookupJ manifest_entry "target".toList with
  | none => .error .keyError
  | some tgt =>
    match lookupJ tgt "path".toList, lookupJ tgt "name".toList with
    | some (.str tpath), some (.str tname) =>
      let destination := pathJoin2 (pathJoin2 base_path tpath) tname
      match alookup fs.files destination with
      | some destContent =>
        match alookup fs.files source_path with
        | some srcContent =>
          if filesystemChecksum destContent 65536 = filesystemChecksum srcContent 65536 then
            .ok (fs, some true)
          else
            let se := splitext tname
            let target_name_with_hash :=
              se.1 ++ '.' :: filesystemChecksum srcContent 65536 ++ se.2
            let destination_name_with_hash :=
              pathJoin2 (pathJoin2 base_path tpath) target_name_with_hash
            .ok (copyFile fs source_path destination_name_with_hash, some true)
        | none => .error .ioError
      | none =>
        match alookup fs.files source_path with
        | some _ =>
          let fs1 := (createDirectory fs (pathJoin2 base_path tpath)).1
          .ok (copyFile fs1 source_path destination, some true)
        | none => .ok (fs, none)
    | _, _ => .error .typeError

/-- The positional parameters of `execute_manifest` as defined in
elodie/filesystem.py (it declares no keyword-only or `**kwargs`
parameters). -/
def executeManifestParams : List Str :=
  ["self", "source_path", "manifest_entry", "base_path"].map String.toList

/-- Whether a Python call to `execute_manifest` may pass the given keyword
argument: the binding succeeds only when the keyword names a declared
parameter, otherwise the call raises `TypeError`. -/
def executeManifestAcceptsKeyword (kw : Str) : Bool :=
  executeManifestParams.contains kw

/-- `FileSystem.generate_manifest(file_path, target_config, metadata_dict,
media)`: the media's extracted metadata is the external input `metadata`.
Builds the manifest entry: the sources record for this path with only the
non-`None` metadata fields (`date_taken` is stored as a one-tuple of the
`struct_time` — the source has a trailing comma), and the computed target
path and name. -/
def generateManifest (strftime : Str → TimeStruct → Str) (fmtDT : TimeStruct → Str)
    (s : FileSystemState) (file_path : Str) (target : Target) (metadata : Metadata) :
    Except PyError (FileSystemState × Json) :=
  match getFolderPath strftime s metadata target with
  | (_, .error e) => .error e
  | (s', .ok fpath) =>
    let sparse : List (Str × Json) :=
      (match metadata.date_taken with
       | some t => [("date_taken".toList, Json.tup [Json.time t])]
       | none => [])
      ++ (match metadata.camera_make with
          | some v => [("camera_make".toList, .str v)] | none => [])
      ++ (match metadata.camera_model with
          | some v => [("camera_model".toList, .str v)] | none => [])
      ++ (match metadata.album with
          | some v => [("album".toList, .str v)] | none => [])
      ++ (match metadata.title with
          | some v => [("title".toList, .str v)] | none => [])
      ++ (match metadata.origin with
          | some v => [("origin".toList, .str v)] | none => [])
    .ok (s', .obj
      [("sources".toList, .obj [(file_path, .obj sparse)]),
       ("target".toList, .obj
         [("path".toList, .str fpath),
          ("name".toList, .str (getFileNameCore fmtDT metadata))])])

/-- The entry list of an object (`Manifest.entries` is always a dict). -/
def objEntries : Json → List (Str × Json)
  | .obj es => es
  | _ => []

/-- `import_file(file_path, config, manifest, metadata_dict, move,
allow_duplicates, dryrun)` from elodie.py: existence check, media-type
classification (`mediaSupported` stands for `Media.get_class_by_file`
finding a handler), checksum and duplicate test against the manifest,
unconditional manifest merge, then the duplicate/dry-run short circuits,
and finally the placement call — which passes the keyword argument
`move_not_copy` that `execute_manifest`'s signature does not declare. -/
def importFile (strftime : Str → TimeStruct → Str) (fmtDT : TimeStruct → Str)
    (s : FileSystemState) (fs : FS) (entries : List (Str × Json))
    (target : Target) (file_path : Str) (metadata : Metadata)
    (mediaSupported _move allow_duplicates dryrun : Bool) :
    Except PyError (FileSystemState × FS × List (Str × Json) × Option Bool) :=
  match alookup fs.files file_path with
  | none => .ok (s, fs, entries, none)
  | some content =>
    if ¬ mediaSupported then .ok (s, fs, entries, none)
    else
      let chksum := manifestChecksum content 65536
      let is_duplicate := (entries.map Prod.fst).contains chksum
      match generateManifest strftime fmtDT s file_path target metadata with
      | .error e => .error e
      | .ok (s', entry) =>
        let entries' := objEntries (deepMerge (.obj entries) (.obj [(chksum, entry)]))
        if (¬ allow_duplicates) ∧ is_duplicate then .ok (s', fs, entries', some true)
        else if dryrun then .ok (s', fs, entries', some true)
        else if executeManifestAcceptsKeyword "move_not_copy".toList then
          match executeManifest fs file_path entry target.base_path with
          | .error e => .error e
          | .ok (fs', r) => .ok (s', fs', entries', r)
        else .error .typeError

end Elodie

namespace Elodie

/-- A concrete metadata record (title "vacation", base "img", extension
"jpg") used to instantiate the titled-rename idempotence theorem. -/
def mTitleWit : Metadata :=
  { date_taken := none
    album := none
    camera_make := none
    camera_model := none
    origin := none
    city := none
    title := some "vacation".toList
    base_name := "img".toList
    original_name := none
    extension := "jpg".toList }

end Elodie

deriving instance DecidableEq for Except

namespace Elodie

/-! ## Theorems -/

/-- Claim C1, counterexample: on the pattern `%album|%city|"Unknown"` with
`album = None` and `city = "Paris"`, `get_folder_path` (on a fresh
`FileSystem`) returns `"Unknown"`, not `"Paris"` as the claim states: the
evaluation loop of `get_folder_path` has no branch for the `city` field
(only `album`, `camera_make`, `camera_model`, `origin` are direct fields),
so the `city` alternative contributes nothing and the quoted literal wins. -/
theorem get_folder_path_city_fallback_counterexample :
    (getFolderPath (fun _ _ => []) freshFS
        { emptyMetadata with city := some "Paris".toList }
        { base_path := [], file_path_pattern := "%album|%city|\"Unknown\"".toList }).2
      = .ok "Unknown".toList ∧
    ¬ (getFolderPath (fun _ _ => []) freshFS
        { emptyMetadata with city := some "Paris".toList }
        { base_path := [], file_path_pattern := "%album|%city|\"Unknown\"".toList }).2
      = .ok "Paris".toList := by
  decide

/-- Claim C1, amended: for the pattern `%album|%city|"Unknown"`,
`get_folder_path` returns the single component `"Unknown"` both when
`album = None, city = "Paris"` and when both fields are absent — the `city`
value is never consulted because the evaluator recognizes only `album`,
`camera_make`, `camera_model` and `origin` as direct fields. -/
theorem get_folder_path_city_fallback_amended :
    (getFolderPath (fun _ _ => []) freshFS
        { emptyMetadata with city := some "Paris".toList }
        { base_path := [], file_path_pattern := "%album|%city|\"Unknown\"".toList }).2
      = .ok "Unknown".toList ∧
    (getFolderPath (fun _ _ => []) freshFS emptyMetadata
        { base_path := [], file_path_pattern := "%album|%city|\"Unknown\"".toList }).2
      = .ok "Unknown".toList := by
  decide

/-- Claim C3, counterexample: the pattern cache of
`get_folder_path_definition` is a single instance-wide slot that is not
keyed by the pattern string.  After a first call compiles `%album`, a
second call asking for `%origin` returns the cached `%album` definition
instead of the compiled definition of `%origin`. -/
theorem pattern_cache_counterexample :
    (getFolderPathDefinition
        (getFolderPathDefinition freshFS "%album".toList).1 "%origin".toList).2
      = .ok [[("album".toList, [])]] ∧
    compilePattern "%origin".toList = .ok [[("origin".toList, [])]] ∧
    ¬ (getFolderPathDefinition
        (getFolderPathDefinition freshFS "%album".toList).1 "%origin".toList).2
      = .ok [[("origin".toList, [])]] :=
  ⟨by decide, by decide, by decide⟩

/-- Claim C3, amended: on a fresh `FileSystem` the first
`get_folder_path_definition` call compiles and returns the definition of its
own pattern, and every subsequent call returns that same first compiled
definition regardless of the pattern string it is given — the cache is one
slot per instance, not a table keyed by pattern string. -/
theorem pattern_cache_amended (p q : Str) (d : PathDef)
    (h : compilePattern p = .ok d) :
    (getFolderPathDefinition freshFS p).2 = .ok d ∧
    (getFolderPathDefinition (getFolderPathDefinition freshFS p).1 q).2 = .ok d := by
  simp [getFolderPathDefinition, freshFS, h]

theorem getField_ne_of_fields (m : Metadata) (v0 : Str)
    (halbum : ¬ m.album = some v0) (hmake : ¬ m.camera_make = some v0)
    (hmodel : ¬ m.camera_model = some v0) (horigin : ¬ m.origin = some v0) :
    ∀ (name v : Str), m.getField name = some v → ¬ v = v0 := by
  intro name v h hv
  subst hv
  unfold Metadata.getField at h
  split_ifs at h <;> simp_all

theorem evalAlts_undated_count (fmt : Str → TimeStruct → Str) (m : Metadata)
    (hdate : m.date_taken = none)
    (hfield : ∀ (name v : Str), m.getField name = some v → ¬ v = "undated".toList) :
    ∀ (seg : List Alt) (flag : Bool),
      (∀ a ∈ seg, isQuoted a.1 → ¬ dequote a.1 = "undated".toList) →
      (List.count "undated".toList (evalAlts fmt m seg flag).1 ≤ if flag then 0 else 1) ∧
      ((evalAlts fmt m seg flag).2 = false →
        flag = false ∧ List.count "undated".toList (evalAlts fmt m seg flag).1 = 0) := by
  intro seg
  induction seg with
  | nil => intro flag _; simp [evalAlts]
  | cons a rest ih =>
    obtain ⟨part, mask⟩ := a
    intro flag hlit
    have hlitrest : ∀ a ∈ rest, isQuoted a.1 → ¬ dequote a.1 = "undated".toList := by
      intro a ha; exact hlit a (List.mem_cons_of_mem _ ha)
    have ihf := ih flag hlitrest
    by_cases ht : part ∈ temporalNames
    · cases flag with
      | true => simp [evalAlts, ht, hdate]
      | false => simp [evalAlts, ht, hdate, List.count_cons]
    · by_cases hdir : part ∈ directNames
      · cases hv : m.getField part with
        | none => simpa [evalAlts, ht, hdir, hv] using ihf
        | some v =>
          by_cases hvnil : v = []
          · simpa [evalAlts, ht, hdir, hv, hvnil] using ihf
          · have hvne : ¬ v = ['u', 'n', 'd', 'a', 't', 'e', 'd'] := by
              simpa using hfield part v hv
            cases flag <;>
              simp [evalAlts, ht, hdir, hv, hvnil, List.count_cons, hvne]
      · by_cases hq : isQuoted part
        · have hdq : ¬ dequote part = ['u', 'n', 'd', 'a', 't', 'e', 'd'] := by
            simpa using hlit (part, mask) (List.mem_cons_self _ _) hq
          simpa [evalAlts, ht, hdir, hq, List.count_cons, hdq] using ihf
        · simpa [evalAlts, ht, hdir, hq] using ihf

theorem evalSegments_cons (fmt : Str → TimeStruct → Str) (m : Metadata)
    (seg : List Alt) (rest : PathDef) (flag : Bool) :
    evalSegments fmt m (seg :: rest) flag =
      ((evalAlts fmt m seg flag).1 ++
        (evalSegments fmt m rest (evalAlts fmt m seg flag).2).1,
       (evalSegments fmt m rest (evalAlts fmt m seg flag).2).2) := by
  rcases h : evalAlts fmt m seg flag with ⟨r, f⟩
  rcases h2 : evalSegments fmt m rest f with ⟨rs, f2⟩
  simp [evalSegments, h, h2]

theorem evalSegments_undated_count (fmt : Str → TimeStruct → Str) (m : Metadata)
    (hdate : m.date_taken = none)
    (hfield : ∀ (name v : Str), m.getField name = some v → ¬ v = "undated".toList) :
    ∀ (defn : PathDef) (flag : Bool),
      (∀ seg ∈ defn, ∀ a ∈ seg, isQuoted a.1 → ¬ dequote a.1 = "undated".toList) →
      List.count "undated".toList (evalSegments fmt m defn flag).1 ≤ if flag then 0 else 1 := by
  intro defn
  induction defn with
  | nil => intro flag _; simp [evalSegments]
  | cons seg rest ih =>
    intro flag hlit
    have hseg := evalAlts_undated_count fmt m hdate hfield seg flag
      (hlit seg (List.mem_cons_self _ _))
    have hrestlit : ∀ s ∈ rest, ∀ a ∈ s, isQuoted a.1 → ¬ dequote a.1 = "undated".toList := by
      intro s hs; exact hlit s (List.mem_cons_of_mem _ hs)
    have hrest := ih (evalAlts fmt m seg flag).2 hrestlit
    rw [evalSegments_cons]
    simp only [List.count_append]
    cases hA2 : (evalAlts fmt m seg flag).2 with
    | true =>
      have h1 := hseg.1
      rw [hA2] at hrest
      cases flag <;> simp_all
    | false =>
      obtain ⟨hf, hc⟩ := hseg.2 hA2
      subst hf
      rw [hA2] at hrest
      simp_all

theorem alookup_aset_self {β : Type} (l : List (Str × β)) (k : Str) (v : β) :
    alookup (aset l k v) k = some v := by
  induction l with
  | nil => simp [aset, alookup]
  | cons a rest ih =>
    obtain ⟨k', v'⟩ := a
    by_cases h : k' = k <;> simp [aset, alookup, h, ih]

theorem alookup_aset_other {β : Type} (l : List (Str × β)) (k k' : Str) (v : β)
    (h : ¬ k = k') : alookup (aset l k v) k' = alookup l k' := by
  induction l with
  | nil => simp [aset, alookup, h]
  | cons a rest ih =>
    obtain ⟨k0, v0⟩ := a
    by_cases h0 : k0 = k
    · subst h0; simp [aset, alookup, h]
    · simp [aset, alookup, h0, ih]

theorem aset_of_lookup_none {β : Type} (l : List (Str × β)) (k : Str) (v : β)
    (h : alookup l k = none) : aset l k v = l ++ [(k, v)] := by
  induction l with
  | nil => simp [aset]
  | cons a rest ih =>
    obtain ⟨k0, v0⟩ := a
    by_cases h0 : k0 = k
    · subst h0; simp [alookup] at h
    · simp [alookup, h0] at h
      simp [aset, h0, ih h]

theorem alookup_append {β : Type} (l1 l2 : List (Str × β)) (k : Str) :
    alookup (l1 ++ l2) k =
      match alookup l1 k with
      | some v => some v
      | none => alookup l2 k := by
  induction l1 with
  | nil => simp [alookup]
  | cons a rest ih =>
    obtain ⟨k0, v0⟩ := a
    by_cases h0 : k0 = k <;> simp [alookup, h0, ih]

theorem alookup_eq_none_of_not_mem {β : Type} (l : List (Str × β)) (k : Str)
    (h : ¬ k ∈ l.map Prod.fst) : alookup l k = none := by
  induction l with
  | nil => simp [alookup]
  | cons a rest ih =>
    obtain ⟨k0, v0⟩ := a
    simp only [List.map_cons, List.mem_cons] at h
    push_neg at h
    have : ¬ k0 = k := fun hk => h.1 hk.symm
    simp [alookup, this, ih h.2]

theorem mergeItems_of_disjoint :
    ∀ (n : Nat) (us ds : List (Str × Json)),
      sizeOf us ≤ n →
      (∀ p ∈ us, alookup ds p.1 = none) →
      keysNodupB us = true → Json.wfListB us = true →
      mergeItems (.obj ds) us = .obj (ds ++ us) := by
  intro n
  induction n with
  | zero =>
    intro us ds hsz _ _ _
    cases us with
    | nil => simp [mergeItems]
    | cons p rest => simp at hsz
  | succ n ih =>
    intro us ds hsz hdisj hnodup hwf
    cases us with
    | nil => simp [mergeItems]
    | cons p rest =>
      obtain ⟨k, v⟩ := p
      have hkds : alookup ds k = none := hdisj (k, v) (List.mem_cons_self _ _)
      have hnodup2 : ((rest.map Prod.fst).contains k) = false ∧ keysNodupB rest = true := by
        have h := hnodup
        simp only [keysNodupB, Bool.and_eq_true, Bool.not_eq_true'] at h
        exact h
      have hwf2 : Json.wfB v = true ∧ Json.wfListB rest = true := by
        have h := hwf
        simp only [Json.wfListB, Bool.and_eq_true] at h
        exact h
      have hkrest : ¬ k ∈ rest.map Prod.fst := by
        intro hm
        have hc : (rest.map Prod.fst).contains k = true := List.elem_iff.2 hm
        rw [hc] at hnodup2
        exact absurd hnodup2.1 (by decide)
      have hszrest : sizeOf rest ≤ n := by simp at hsz; omega
      have haset : aset ds k v = ds ++ [(k, v)] := aset_of_lookup_none ds k v hkds
      have hstep : mergeItems (.obj ds) ((k, v) :: rest)
          = mergeItems (.obj (ds ++ [(k, v)])) rest := by
        cases v with
        | obj vs =>
          have hvs : keysNodupB vs = true ∧ Json.wfListB vs = true := by
            simpa [Json.wfB, Bool.and_eq_true] using hwf2.1
          have hszvs : sizeOf vs ≤ n := by simp at hsz; omega
          have hinner : mergeItems (.obj []) vs = .obj vs := by
            have := ih vs [] hszvs (by intro p _; simp [alookup]) hvs.1 hvs.2
            simpa using this
          have hobjget : (Json.obj ds).objGet k (.obj []) = .obj [] := by
            simp [Json.objGet, hkds]
          have hdm : deepMerge ((Json.obj ds).objGet k (.obj [])) (.obj vs) = .obj vs := by
            rw [hobjget]
            simpa [deepMerge] using hinner
          simp only [mergeItems, Json.isMapping, if_true]
          rw [hdm]
          simp [Json.objSet, haset]
        | null => simp [mergeItems, Json.isMapping, Json.objSet, haset]
        | bool b => simp [mergeItems, Json.isMapping, Json.objSet, haset]
        | num i => simp [mergeItems, Json.isMapping, Json.objSet, haset]
        | str s => simp [mergeItems, Json.isMapping, Json.objSet, haset]
        | arr xs => simp [mergeItems, Json.isMapping, Json.objSet, haset]
        | time t => simp [mergeItems, Json.isMapping, Json.objSet, haset]
        | tup xs => simp [mergeItems, Json.isMapping, Json.objSet, haset]
      rw [hstep]
      have hdisj2 : ∀ p ∈ rest, alookup (ds ++ [(k, v)]) p.1 = none := by
        intro p hp
        have h1 : alookup ds p.1 = none := hdisj p (List.mem_cons_of_mem _ hp)
        have h2 : ¬ k = p.1 := by
          intro hpk
          exact hkrest (hpk ▸ List.mem_map_of_mem Prod.fst hp)
        rw [alookup_append, h1]
        simp [alookup, h2]
      rw [ih rest (ds ++ [(k, v)]) hszrest hdisj2 hnodup2.2 hwf2.2]
      simp

theorem mergeItems_cons_step (ds : List (Str × Json)) (k0 : Str) (v0 : Json)
    (rest : List (Str × Json)) :
    mergeItems (.obj ds) ((k0, v0) :: rest)
      = mergeItems (.obj (aset ds k0
          (if v0.isMapping then deepMerge ((alookup ds k0).getD (.obj [])) v0 else v0)))
          rest := by
  cases v0 <;> simp [mergeItems, Json.isMapping, Json.objGet, Json.objSet]

theorem mergedValueSpec_of_not_mapping (old v : Json) (h : v.isMapping = false) :
    mergedValueSpec old v = v := by
  have hne : v.isEmptyObj = false := by
    cases v <;> simp_all [Json.isMapping, Json.isEmptyObj]
  simp [mergedValueSpec, h, hne]

theorem deepMerge_emptyObj_left (vs : List (Str × Json))
    (hnodup : keysNodupB vs = true) (hwf : Json.wfListB vs = true) :
    deepMerge (.obj []) (.obj vs) = .obj vs := by
  have := mergeItems_of_disjoint (sizeOf vs) vs [] le_rfl
    (by intro p _; simp [alookup]) hnodup hwf
  simpa [deepMerge] using this

theorem keysNodupB_head_not_mem (k : Str) (v : Json) (rest : List (Str × Json))
    (h : keysNodupB ((k, v) :: rest) = true) : ¬ k ∈ rest.map Prod.fst := by
  have h2 : ((rest.map Prod.fst).contains k) = false ∧ keysNodupB rest = true := by
    simp only [keysNodupB, Bool.and_eq_true, Bool.not_eq_true'] at h
    exact h
  intro hm
  have hc : (rest.map Prod.fst).contains k = true := List.elem_iff.2 hm
  rw [hc] at h2
  exact absurd h2.1 (by decide)

theorem deepMerge_not_null (o : Json) (us : List (Str × Json)) (h : o.isNull = false) :
    deepMerge o (.obj us) = mergeItems o us := by
  cases o <;> simp_all [deepMerge, Json.isNull]

theorem scalar_old_merge (o : Json) (vs : List (Str × Json))
    (ho : o.isMapping = false) (honull : o.isNull = false)
    (hnodup : keysNodupB vs = true) (hwf : Json.wfListB vs = true) :
    deepMerge o (.obj vs) = mergedValueSpec o (.obj vs) := by
  rw [deepMerge_not_null o vs honull]
  cases vs with
  | nil =>
    have h1 : mergeItems o [] = o := by simp [mergeItems]
    rw [h1]
    simp [mergedValueSpec, ho, honull, Json.isEmptyObj]
  | cons q vs2 =>
    obtain ⟨k1, v1⟩ := q
    have hstep : mergeItems o ((k1, v1) :: vs2) = mergeItems (.obj [(k1, v1)]) vs2 := by
      simp [mergeItems, ho]
    have hnotmem : ¬ k1 ∈ vs2.map Prod.fst :=
      keysNodupB_head_not_mem k1 v1 vs2 hnodup
    have hnd2 : keysNodupB vs2 = true := by
      simp only [keysNodupB, Bool.and_eq_true, Bool.not_eq_true'] at hnodup
      exact hnodup.2
    have hwfv : Json.wfB v1 = true ∧ Json.wfListB vs2 = true := by
      simp only [Json.wfListB, Bool.and_eq_true] at hwf
      exact hwf
    have hrest2 : mergeItems (.obj [(k1, v1)]) vs2 = .obj ((k1, v1) :: vs2) := by
      have := mergeItems_of_disjoint (sizeOf vs2) vs2 [(k1, v1)] le_rfl
        (by
          intro p hp
          have hne : ¬ k1 = p.1 := by
            intro hpk
            exact hnotmem (hpk ▸ List.mem_map_of_mem Prod.fst hp)
          simp [alookup, hne])
        hnd2 hwfv.2
      simpa using this
    rw [hstep, hrest2]
    simp [mergedValueSpec, ho, honull, Json.isEmptyObj]

theorem lookupJ_mergeItems :
    ∀ (us ds : List (Str × Json)) (k : Str),
      keysNodupB us = true → Json.wfListB us = true →
      lookupJ (mergeItems (.obj ds) us) k =
        (match alookup us k with
         | none => alookup ds k
         | some v => some (mergedValueSpec ((alookup ds k).getD .null) v)) := by
  intro us
  induction us with
  | nil => intro ds k _ _; simp [mergeItems, lookupJ, alookup]
  | cons p rest ih =>
    obtain ⟨k0, v0⟩ := p
    intro ds k hnodup hwf
    have hnodup2 : ((rest.map Prod.fst).contains k0) = false ∧ keysNodupB rest = true := by
      simp only [keysNodupB, Bool.and_eq_true, Bool.not_eq_true'] at hnodup
      exact hnodup
    have hwf2 : Json.wfB v0 = true ∧ Json.wfListB rest = true := by
      simp only [Json.wfListB, Bool.and_eq_true] at hwf
      exact hwf
    have hkrest : ¬ k0 ∈ rest.map Prod.fst :=
      keysNodupB_head_not_mem k0 v0 rest hnodup
    rw [mergeItems_cons_step]
    rw [ih _ k hnodup2.2 hwf2.2]
    by_cases hk : k0 = k
    · subst hk
      have hrest0 : alookup rest k0 = none :=
        alookup_eq_none_of_not_mem rest k0 hkrest
      have hhead : alookup ((k0, v0) :: rest) k0 = some v0 := by simp [alookup]
      rw [hrest0, hhead]
      simp only [alookup_aset_self]
      show some (if v0.isMapping then deepMerge ((alookup ds k0).getD (.obj [])) v0 else v0)
          = some (mergedValueSpec ((alookup ds k0).getD .null) v0)
      cases hv0 : v0.isMapping with
      | false => simp [hv0, mergedValueSpec_of_not_mapping _ _ hv0]
      | true =>
        have hobj : ∃ vs, v0 = .obj vs := by
          cases v0
          case obj es => exact ⟨es, rfl⟩
          all_goals exact absurd hv0 (by simp [Json.isMapping])
        obtain ⟨vs, rfl⟩ := hobj
        have hvs : keysNodupB vs = true ∧ Json.wfListB vs = true := by
          have := hwf2.1
          simp only [Json.wfB, Bool.and_eq_true] at this
          exact this
        rw [if_pos rfl]
        cases halk : alookup ds k0 with
        | none =>
          simp only [Option.getD_none]
          rw [deepMerge_emptyObj_left vs hvs.1 hvs.2]
          rfl
        | some o =>
          simp only [Option.getD_some]
          cases hom : o.isMapping with
          | true =>
            have hc : (o.isMapping && (Json.obj vs).isMapping) = true := by
              rw [hom]; rfl
            unfold mergedValueSpec
            rw [if_pos hc]
          | false =>
            cases hon : o.isNull with
            | true =>
              have ho : o = .null := by
                cases o
                case null => rfl
                all_goals exact absurd hon (by simp [Json.isNull])
              subst ho
              rfl
            | false =>
              rw [scalar_old_merge o vs hom hon hvs.1 hvs.2]
    · rw [alookup_aset_other ds k0 k _ hk]
      simp [alookup, hk]

theorem chunksOfFuel_foldl_append (bs : Nat) (hbs : 0 < bs) :
    ∀ (fuel : Nat) (l : List Nat) (init : List Nat), l.length ≤ fuel →
      (chunksOfFuel bs fuel l).foldl (fun h buf => h ++ buf) init = init ++ l := by
  intro fuel
  induction fuel with
  | zero =>
    intro l init hl
    have : l = [] := List.length_eq_zero.1 (Nat.le_zero.1 hl)
    subst this
    simp [chunksOfFuel]
  | succ n ih =>
    intro l init hl
    cases l with
    | nil => simp [chunksOfFuel]
    | cons x xs =>
      have hbs' : ¬ bs = 0 := Nat.pos_iff_ne_zero.1 hbs
      rw [chunksOfFuel, if_neg hbs']
      rw [List.foldl_cons]
      have hlen : ((x :: xs).drop bs).length ≤ n := by
        simp only [List.length_drop, List.length_cons] at *
        omega
      rw [ih ((x :: xs).drop bs) (init ++ (x :: xs).take bs) hlen]
      rw [List.append_assoc, List.take_append_drop]

theorem chunksOf_foldl_append (bs : Nat) (hbs : 0 < bs) (l init : List Nat) :
    (chunksOf bs l).foldl (fun h buf => h ++ buf) init = init ++ l :=
  chunksOfFuel_foldl_append bs hbs l.length l init le_rfl

theorem hexDigitChar_lower_hex : ∀ n, n < 16 →
    (('0' ≤ hexDigitChar n ∧ hexDigitChar n ≤ '9') ∨
     ('a' ≤ hexDigitChar n ∧ hexDigitChar n ≤ 'f')) := by
  decide

theorem sha256hex_lower_hex (msg : List Nat) :
    ∀ c ∈ sha256hex msg, (('0' ≤ c ∧ c ≤ '9') ∨ ('a' ≤ c ∧ c ≤ 'f')) := by
  intro c hc
  simp only [sha256hex, List.mem_flatten, List.mem_map] at hc
  obtain ⟨l, ⟨w, _, rfl⟩, hcl⟩ := hc
  simp only [wordToHex, List.mem_cons, List.not_mem_nil, or_false] at hcl
  rcases hcl with h | h | h | h | h | h | h | h <;> subst h <;>
    exact hexDigitChar_lower_hex _ (Nat.mod_lt _ (by omega))

/-- Claim C10: for every file content and every positive block size, the
module-level `checksum` of elodie/filesystem.py and `Manifest.checksum` of
elodie/manifest.py return the same digest, namely the SHA-256 hex digest of
the whole content (the chunked reads concatenate back to the content), and
that digest consists solely of lowercase hex characters. -/
theorem checksum_functions_agree (content : List Nat) (blocksize : Nat)
    (h : 0 < blocksize) :
    filesystemChecksum content blocksize = sha256hex content ∧
    manifestChecksum content blocksize = sha256hex content ∧
    filesystemChecksum content blocksize = manifestChecksum content blocksize ∧
    (∀ c ∈ sha256hex content, (('0' ≤ c ∧ c ≤ '9') ∨ ('a' ≤ c ∧ c ≤ 'f'))) := by
  have hc : (chunksOf blocksize content).foldl (fun h buf => h ++ buf) [] = content := by
    simpa using chunksOf_foldl_append blocksize h content []
  refine ⟨?_, ?_, rfl, sha256hex_lower_hex content⟩
  · rw [filesystemChecksum, hc]
  · rw [manifestChecksum, hc]

/-- Witness for `checksum_functions_agree` at a one-byte file and the
default 64 KiB block size. -/
theorem checksum_functions_agree_witness :
    0 < 65536 ∧
    (filesystemChecksum [97] 65536 = sha256hex [97] ∧
     manifestChecksum [97] 65536 = sha256hex [97] ∧
     filesystemChecksum [97] 65536 = manifestChecksum [97] 65536 ∧
     (∀ c ∈ sha256hex [97], (('0' ≤ c ∧ c ≤ '9') ∨ ('a' ≤ c ∧ c ≤ 'f')))) :=
  ⟨by decide, checksum_functions_agree [97] 65536 (by decide)⟩

theorem splitext_append (p : Str) : (splitext p).1 ++ (splitext p).2 = p := by
  unfold splitext
  rcases h : rlastIdx (fun c => c = '.') p with _ | dotIdx
  · simp
  · dsimp only
    split_ifs <;> simp [List.take_append_drop]

theorem head?_of_take (n : Nat) (p : Str) (h : ¬ p.take n = []) :
    (p.take n).head? = p.head? := by
  cases n with
  | zero => simp at h
  | succ n =>
    cases p with
    | nil => simp at h
    | cons c cs => simp

theorem splitext_fst_head (p : Str) (h : ¬ (splitext p).1 = []) :
    (splitext p).1.head? = p.head? := by
  unfold splitext at h ⊢
  rcases hr : rlastIdx (fun c => c = '.') p with _ | dotIdx
  · simp
  · rw [hr] at h
    dsimp only at h ⊢
    split_ifs at h ⊢ <;> first
      | rfl
      | exact head?_of_take _ _ h

theorem pathJoin2_ne_of_length (a n1 n2 : Str)
    (h1 : ¬ n1.head? = some '/') (h2 : ¬ n2.head? = some '/')
    (hlen : ¬ n1.length = n2.length) :
    ¬ pathJoin2 a n1 = pathJoin2 a n2 := by
  unfold pathJoin2
  rw [if_neg h1, if_neg h2]
  intro h
  split_ifs at h
  · exact hlen (congrArg List.length (List.append_cancel_left h))
  · have := List.append_cancel_left h
    cases this
    exact hlen rfl

theorem copyFile_preserves_src (fs : FS) (src d : Str) :
    alookup (copyFile fs src d).files src = alookup fs.files src := by
  unfold copyFile
  cases h : alookup fs.files src with
  | none => rw [h]
  | some c =>
    by_cases hd : d = src
    · subst hd
      simp [alookup_aset_self, h]
    · simp [alookup_aset_other fs.files d src c hd, h]

theorem createDirectory_files (fs : FS) (p : Str) :
    (createDirectory fs p).1.files = fs.files := by
  unfold createDirectory
  split <;> rfl

theorem executeManifest_preserves_source (fs : FS) (src : Str) (e : Json)
    (b : Str) (out : FS × Option Bool)
    (h : executeManifest fs src e b = .ok out) :
    alookup out.1.files src = alookup fs.files src := by
  unfold executeManifest at h
  dsimp only at h
  repeat' split at h
  all_goals cases h
  all_goals first
    | rfl
    | exact copyFile_preserves_src fs src _
    | rw [copyFile_preserves_src, createDirectory_files]

/-- Claim C7: when a file already exists at the computed destination,
`execute_manifest` never overwrites it.  If the destination's checksum
equals the source's, it returns success with no filesystem change at all;
if the checksums differ, the source is copied to a sibling whose name
interpolates the source's checksum before the extension, the original
destination entry is left byte-for-byte unchanged, and the call still
returns success. -/
theorem execute_manifest_never_overwrites
    (fs : FS) (source_path base_path tpath tname : Str) (entry tgt : Json)
    (dc sc : Content)
    (htgt : lookupJ entry "target".toList = some tgt)
    (hpath : lookupJ tgt "path".toList = some (.str tpath))
    (hname : lookupJ tgt "name".toList = some (.str tname))
    (hdest : alookup fs.files (pathJoin2 (pathJoin2 base_path tpath) tname) = some dc)
    (hsrc : alookup fs.files source_path = some sc)
    (hnoslash : ¬ tname.head? = some '/') :
    (filesystemChecksum dc 65536 = filesystemChecksum sc 65536 →
      executeManifest fs source_path entry base_path = .ok (fs, some true)) ∧
    (¬ filesystemChecksum dc 65536 = filesystemChecksum sc 65536 →
      executeManifest fs source_path entry base_path
        = .ok (⟨aset fs.files
            (pathJoin2 (pathJoin2 base_path tpath)
              ((splitext tname).1 ++ '.' :: filesystemChecksum sc 65536
                ++ (splitext tname).2)) sc, fs.dirs⟩, some true) ∧
      alookup (aset fs.files
          (pathJoin2 (pathJoin2 base_path tpath)
            ((splitext tname).1 ++ '.' :: filesystemChecksum sc 65536
              ++ (splitext tname).2)) sc)
        (pathJoin2 (pathJoin2 base_path tpath) tname) = some dc) := by
  have hwh : ¬ ((splitext tname).1 ++ '.' :: filesystemChecksum sc 65536
      ++ (splitext tname).2).head? = some '/' := by
    rw [List.head?_append_of_ne_nil
      ((splitext tname).1 ++ '.' :: filesystemChecksum sc 65536) (by simp)]
    by_cases hfst : (splitext tname).1 = []
    · rw [hfst]
      simp
    · rw [List.head?_append_of_ne_nil _ hfst]
      rw [splitext_fst_head tname hfst]
      exact hnoslash
  have hlen0 := congrArg List.length (splitext_append tname)
  have hlen : ¬ tname.length
      = ((splitext tname).1 ++ '.' :: filesystemChecksum sc 65536
          ++ (splitext tname).2).length := by
    simp only [List.length_append] at hlen0
    simp only [List.length_append, List.length_cons]
    omega
  have hne : ¬ pathJoin2 (pathJoin2 base_path tpath)
        ((splitext tname).1 ++ '.' :: filesystemChecksum sc 65536
          ++ (splitext tname).2)
      = pathJoin2 (pathJoin2 base_path tpath) tname :=
    pathJoin2_ne_of_length (pathJoin2 base_path tpath) _ tname hwh hnoslash
      (fun hl => hlen hl.symm)
  constructor
  · intro heq
    simp only [executeManifest, htgt, hpath, hname, hdest, hsrc, if_pos heq]
  · intro hneq
    constructor
    · simp only [executeManifest, htgt, hpath, hname, hdest, hsrc,
        if_neg hneq, copyFile]
    · rw [alookup_aset_other _ _ _ _ hne]
      exact hdest

/-- Witness for `execute_manifest_never_overwrites` at a two-file disk
with an occupied destination. -/
theorem execute_manifest_never_overwrites_witness :
    (filesystemChecksum [0] 65536 = filesystemChecksum [1] 65536 →
      executeManifest
        ⟨[("b/d/n.jpg".toList, [0]), ("s".toList, [1])], []⟩ "s".toList
        (Json.obj [("target".toList, Json.obj
          [("path".toList, .str "d".toList), ("name".toList, .str "n.jpg".toList)])])
        "b".toList
        = .ok (⟨[("b/d/n.jpg".toList, [0]), ("s".toList, [1])], []⟩, some true)) ∧
    (¬ filesystemChecksum [0] 65536 = filesystemChecksum [1] 65536 →
      executeManifest
        ⟨[("b/d/n.jpg".toList, [0]), ("s".toList, [1])], []⟩ "s".toList
        (Json.obj [("target".toList, Json.obj
          [("path".toList, .str "d".toList), ("name".toList, .str "n.jpg".toList)])])
        "b".toList
        = .ok (⟨aset [("b/d/n.jpg".toList, [0]), ("s".toList, [1])]
            (pathJoin2 (pathJoin2 "b".toList "d".toList)
              ((splitext "n.jpg".toList).1 ++ '.' :: filesystemChecksum [1] 65536
                ++ (splitext "n.jpg".toList).2)) [1], []⟩, some true) ∧
      alookup (aset [("b/d/n.jpg".toList, [0]), ("s".toList, [1])]
          (pathJoin2 (pathJoin2 "b".toList "d".toList)
            ((splitext "n.jpg".toList).1 ++ '.' :: filesystemChecksum [1] 65536
              ++ (splitext "n.jpg".toList).2)) [1])
        (pathJoin2 (pathJoin2 "b".toList "d".toList) "n.jpg".toList) = some [0]) :=
  execute_manifest_never_overwrites
    ⟨[("b/d/n.jpg".toList, [0]), ("s".toList, [1])], []⟩
    "s".toList "b".toList "d".toList "n.jpg".toList
    (Json.obj [("target".toList, Json.obj
      [("path".toList, .str "d".toList), ("name".toList, .str "n.jpg".toList)])])
    (Json.obj [("path".toList, .str "d".toList), ("name".toList, .str "n.jpg".toList)])
    [0] [1] rfl rfl rfl (by decide) (by decide) (by decide)

/-- Claim C2 (code bug): every non-duplicate, non-dry-run
`import_file` call (in particular any `--move` import) raises `TypeError`
instead of placing the file: elodie.py line 84 passes the keyword argument
`move_not_copy` to `execute_manifest`, whose signature
`(self, source_path, manifest_entry, base_path)` declares no such
parameter.  Moreover `execute_manifest` itself has no move branch at all:
it only ever copies, so the source file entry is never removed. -/
theorem import_move_placement_bug :
    (∀ (strftime : Str → TimeStruct → Str) (fmtDT : TimeStruct → Str)
        (s : FileSystemState) (fs : FS) (entries : List (Str × Json))
        (target : Target) (file_path : Str) (metadata : Metadata)
        (content : Content) (move allow_duplicates : Bool)
        (s' : FileSystemState) (entry : Json),
      alookup fs.files file_path = some content →
      generateManifest strftime fmtDT s file_path target metadata = .ok (s', entry) →
      (allow_duplicates = true ∨
        ((entries.map Prod.fst).contains (manifestChecksum content 65536)) = false) →
      importFile strftime fmtDT s fs entries target file_path metadata true move
        allow_duplicates false = .error .typeError) ∧
    (∀ (fs : FS) (src : Str) (e : Json) (b : Str) (out : FS × Option Bool),
      executeManifest fs src e b = .ok out →
      alookup out.1.files src = alookup fs.files src) := by
  constructor
  · intro strftime fmtDT s fs entries target file_path metadata content move
      allow_duplicates s' entry hfile hgen hskip
    rcases hskip with h | h
    · subst h
      simp only [importFile, hfile, hgen]
      rfl
    · simp only [importFile, hfile, hgen, h]
      rw [if_neg (show ¬ (¬ allow_duplicates = true ∧ false = true) from
        fun hc => Bool.false_ne_true hc.2)]
      rfl
  · intro fs src e b out h
    exact executeManifest_preserves_source fs src e b out h

/-- Witness for `import_move_placement_bug`: a concrete `--move` import of
a fresh one-byte file errors with `TypeError` before touching the disk. -/
theorem import_move_placement_bug_witness :
    importFile (fun _ _ => []) (fun _ => []) freshFS
      ⟨[("a.jpg".toList, [1])], []⟩ [] ⟨"base".toList, "%album".toList⟩
      "a.jpg".toList
      { emptyMetadata with
        album := some "trip".toList
        base_name := "img".toList
        extension := "jpg".toList }
      true true false false = .error .typeError :=
  import_move_placement_bug.1 (fun _ _ => []) (fun _ => []) freshFS
    ⟨[("a.jpg".toList, [1])], []⟩ [] ⟨"base".toList, "%album".toList⟩
    "a.jpg".toList
    { emptyMetadata with
      album := some "trip".toList
      base_name := "img".toList
      extension := "jpg".toList }
    [1] true false
    ⟨some [[("album".toList, [])]]⟩
    (Json.obj
      [("sources".toList, Json.obj
        [("a.jpg".toList, Json.obj [("album".toList, Json.str "trip".toList)])]),
       ("target".toList, Json.obj
        [("path".toList, Json.str "trip".toList),
         ("name".toList, Json.str "img.jpg".toList)])])
    rfl rfl (Or.inr (by decide))

/-- Claim C5: for an imported file whose checksum is already a key of the
manifest, `import_file` with `allow_duplicates` false still computes the
manifest entry and merges it into the manifest, then returns `True`
without touching the filesystem. -/
theorem import_duplicate_merges_and_skips
    (strftime : Str → TimeStruct → Str) (fmtDT : TimeStruct → Str)
    (s : FileSystemState) (fs : FS) (entries : List (Str × Json))
    (target : Target) (file_path : Str) (metadata : Metadata)
    (content : Content) (move dryrun : Bool)
    (s' : FileSystemState) (entry : Json)
    (hfile : alookup fs.files file_path = some content)
    (hdup : ((entries.map Prod.fst).contains (manifestChecksum content 65536)) = true)
    (hgen : generateManifest strftime fmtDT s file_path target metadata = .ok (s', entry)) :
    importFile strftime fmtDT s fs entries target file_path metadata true move
      false dryrun
      = .ok (s', fs,
          objEntries (deepMerge (.obj entries)
            (.obj [(manifestChecksum content 65536, entry)])),
          some true) := by
  simp only [importFile, hfile, hgen, hdup]
  rfl

/-- Witness for `import_duplicate_merges_and_skips`: re-importing a
one-byte file whose digest is already a manifest key. -/
theorem import_duplicate_merges_and_skips_witness :
    ((([(manifestChecksum [1] 65536, Json.null)].map Prod.fst).contains
        (manifestChecksum [1] 65536)) = true) ∧
    importFile (fun _ _ => []) (fun _ => []) freshFS
      ⟨[("a.jpg".toList, [1])], []⟩
      [(manifestChecksum [1] 65536, Json.null)]
      ⟨"base".toList, "%album".toList⟩ "a.jpg".toList
      { emptyMetadata with
        album := some "trip".toList
        base_name := "img".toList
        extension := "jpg".toList }
      true false false false
      = .ok (⟨some [[("album".toList, [])]]⟩,
          ⟨[("a.jpg".toList, [1])], []⟩,
          objEntries (deepMerge (.obj [(manifestChecksum [1] 65536, Json.null)])
            (.obj [(manifestChecksum [1] 65536,
              Json.obj
                [("sources".toList, Json.obj
                  [("a.jpg".toList, Json.obj
                    [("album".toList, Json.str "trip".toList)])]),
                 ("target".toList, Json.obj
                  [("path".toList, Json.str "trip".toList),
                   ("name".toList, Json.str "img.jpg".toList)])])])),
          some true) :=
  ⟨by decide,
   import_duplicate_merges_and_skips (fun _ _ => []) (fun _ => []) freshFS
    ⟨[("a.jpg".toList, [1])], []⟩
    [(manifestChecksum [1] 65536, Json.null)]
    ⟨"base".toList, "%album".toList⟩ "a.jpg".toList
    { emptyMetadata with
      album := some "trip".toList
      base_name := "img".toList
      extension := "jpg".toList }
    [1] false false
    ⟨some [[("album".toList, [])]]⟩
    (Json.obj
      [("sources".toList, Json.obj
        [("a.jpg".toList, Json.obj [("album".toList, Json.str "trip".toList)])]),
       ("target".toList, Json.obj
        [("path".toList, Json.str "trip".toList),
         ("name".toList, Json.str "img.jpg".toList)])])
    rfl (by decide) rfl⟩

theorem isPrefixOf_self : ∀ l : Str, l.isPrefixOf l = true := by
  intro l
  induction l with
  | nil => rfl
  | cons c cs ih => simp [List.isPrefixOf, ih]

theorem map_eq_self_iff_forall (f : Char → Char) :
    ∀ l : Str, (l.map f = l ↔ ∀ c ∈ l, f c = c) := by
  intro l
  induction l with
  | nil => simp
  | cons c cs ih => simp_all

theorem replaceAllFuel_subset (p0 : Char) (ps : Str) :
    ∀ (fuel : Nat) (l : Str) (c : Char), c ∈ replaceAllFuel p0 ps fuel l → c ∈ l := by
  intro fuel
  induction fuel with
  | zero =>
    intro l c hc
    cases l with
    | nil => simp [replaceAllFuel] at hc
    | cons x xs => simpa [replaceAllFuel] using hc
  | succ n ih =>
    intro l c hc
    cases l with
    | nil => simp [replaceAllFuel] at hc
    | cons x xs =>
      rw [replaceAllFuel] at hc
      split at hc
      · have := ih _ c hc
        exact List.mem_cons_of_mem x (List.drop_subset _ _ this)
      · rcases List.mem_cons.1 hc with h | h
        · exact h ▸ List.mem_cons_self x xs
        · exact List.mem_cons_of_mem x (ih _ c h)

theorem replaceAllFuel_append_pattern (p0 : Char) (ps : Str) :
    ∀ (x : Str) (fuel : Nat), (x ++ p0 :: ps).length ≤ fuel →
      (∀ i, i < x.length →
        ¬ ((p0 :: ps).isPrefixOf ((x ++ p0 :: ps).drop i)) = true) →
      replaceAllFuel p0 ps fuel (x ++ p0 :: ps) = x := by
  intro x
  induction x with
  | nil =>
    intro fuel hfuel _
    cases fuel with
    | zero => simp at hfuel
    | succ n =>
      simp only [List.nil_append]
      rw [replaceAllFuel, if_pos (isPrefixOf_self (p0 :: ps))]
      rw [List.drop_length]
      cases n <;> rfl
  | cons c x' ih =>
    intro fuel hfuel honly
    cases fuel with
    | zero => simp at hfuel
    | succ n =>
      have h0 : ¬ ((p0 :: ps).isPrefixOf ((c :: x' ++ p0 :: ps).drop 0)) = true := by
        exact honly 0 (by simp)
      simp only [List.drop_zero] at h0
      simp only [List.cons_append]
      rw [replaceAllFuel, if_neg (by simpa using h0)]
      rw [ih n (by simpa using hfuel)
        (fun i hi => by simpa using honly (i + 1) (by simpa using hi))]

theorem replaceAllCons_append_pattern (p0 : Char) (ps : Str) (x : Str)
    (honly : ∀ i, i < x.length →
      ¬ ((p0 :: ps).isPrefixOf ((x ++ p0 :: ps).drop i)) = true) :
    replaceAllCons p0 ps (x ++ p0 :: ps) = x :=
  replaceAllFuel_append_pattern p0 ps x (x ++ p0 :: ps).length le_rfl honly

theorem rlastIdx_eq_none_of_forall (p : Char → Bool) :
    ∀ l : Str, (∀ c ∈ l, ¬ p c = true) → rlastIdx p l = none := by
  intro l
  induction l with
  | nil => simp [rlastIdx]
  | cons c cs ih =>
    intro h
    rw [rlastIdx, ih (fun d hd => h d (List.mem_cons_of_mem c hd))]
    simp [h c (List.mem_cons_self c cs)]

theorem rlastIdx_append (p : Char → Bool) (ys : Str) :
    ∀ xs : Str, rlastIdx p (xs ++ ys) =
      match rlastIdx p ys with
      | some j => some (xs.length + j)
      | none => rlastIdx p xs := by
  intro xs
  induction xs with
  | nil => cases h : rlastIdx p ys <;> simp [h, rlastIdx]
  | cons c cs ih =>
    rw [List.cons_append, rlastIdx, ih]
    cases h : rlastIdx p ys with
    | some j => simp [Nat.succ_add]
    | none =>
      cases h2 : rlastIdx p cs with
      | some i => simp [rlastIdx, h2]
      | none => simp [rlastIdx, h2]

theorem splitext_clean (b e : Str) (hb : ¬ b = [])
    (hdot : ¬ '.' ∈ e) (hsb : ¬ '/' ∈ b) (hse : ¬ '/' ∈ e)
    (hnondot : ∃ c ∈ b, ¬ c = '.') :
    splitext (b ++ '.' :: e) = (b, '.' :: e) := by
  have hdotIdx : rlastIdx (fun c => c = '.') (b ++ '.' :: e) = some b.length := by
    rw [rlastIdx_append]
    have he : rlastIdx (fun c => c = '.') e = none :=
      rlastIdx_eq_none_of_forall _ e (by
        intro c hc
        simp only [decide_eq_true_eq]
        intro hcd
        exact hdot (hcd ▸ hc))
    rw [rlastIdx, he]
    simp
  have hsepIdx : rlastIdx (fun c => c = '/') (b ++ '.' :: e) = none := by
    apply rlastIdx_eq_none_of_forall
    intro c hc
    simp only [decide_eq_true_eq]
    intro hcd
    subst hcd
    rcases List.mem_append.1 hc with h | h
    · exact hsb h
    · rcases List.mem_cons.1 h with h | h
      · cases h
      · exact hse h
  have hblen : 0 < b.length := List.length_pos.2 hb
  unfold splitext
  rw [hdotIdx, hsepIdx]
  dsimp only
  rw [if_pos]
  · rw [List.take_left b ('.' :: e), List.drop_left b ('.' :: e)]
  · refine ⟨hblen, ?_⟩
    obtain ⟨c, hc, hcd⟩ := hnondot
    simp only [Nat.sub_zero, List.drop_zero, List.take_left]
    simp only [List.any_eq_true, decide_eq_true_eq]
    exact ⟨c, hc, by simpa using hcd⟩

/-- Claim C8, counterexample: the title sanitization of `get_file_name`
does not lowercase (filesystem.py:171 strips and collapses non-word runs
only), while the final file name is lowercased as a whole; so for the
mixed-case title `A` the first derivation produces `img-a.jpg`, and
re-deriving the name for that file appends the title again —
`img-a-a.jpg` — because the prior occurrence `-A` is not found in the
lowercased base `img-a`. -/
theorem get_file_name_title_counterexample :
    getFileName (fun _ => []) (some { emptyMetadata with
      title := some "A".toList
      base_name := "img".toList
      extension := "jpg".toList }) = some "img-a.jpg".toList ∧
    retitleFileName (fun _ => []) { emptyMetadata with
      title := some "A".toList
      base_name := "img".toList
      extension := "jpg".toList } = some "img-a-a.jpg".toList ∧
    ¬ retitleFileName (fun _ => []) { emptyMetadata with
        title := some "A".toList
        base_name := "img".toList
        extension := "jpg".toList }
      = getFileName (fun _ => []) (some { emptyMetadata with
        title := some "A".toList
        base_name := "img".toList
        extension := "jpg".toList }) :=
  ⟨by decide, by decide, by decide⟩

theorem intercalate_single (sep x : Str) : List.intercalate sep [x] = x := by
  simp [List.intercalate]

/-- Claim C8, amended: the title embedded by `get_file_name` is sanitized by
whitespace-stripping and collapsing non-word runs to single hyphens — not
lowercased — and the prior occurrence removed from the base is this exact
(case-sensitive) form.  Re-applying the same title update reproduces the
same file name provided the sanitized title and the base name are unchanged
by lowercasing, and the hyphen-prefixed sanitized title occurs in the
once-titled base only as its final component (plus housekeeping side
conditions: no date-stamp prefix, no slash, no dot in the extension). -/
theorem get_file_name_title_idempotent
    (fmtDT : TimeStruct → Str) (m : Metadata) (t : Str)
    (hdate : m.date_taken = none)
    (horigin : m.origin = none)
    (hcam : m.camera_model = none)
    (htitle : m.title = some t) (htne : ¬ t = [])
    (hlows : toLowerStr (subNonWord (pyStrip t)) = subNonWord (pyStrip t))
    (hlowb : toLowerStr (baseNameOf m) = baseNameOf m)
    (hdotext : ¬ '.' ∈ toLowerStr m.extension)
    (hslashext : ¬ '/' ∈ toLowerStr m.extension)
    (hslashb : ¬ '/' ∈ baseNameOf m)
    (hslashs : ¬ '/' ∈ subNonWord (pyStrip t))
    (hnodate : matchesDateStamp
        (replaceAllCons '-' (subNonWord (pyStrip t)) (baseNameOf m)
          ++ '-' :: subNonWord (pyStrip t)) = false)
    (honly : ∀ i, i < (replaceAllCons '-' (subNonWord (pyStrip t)) (baseNameOf m)).length →
      ¬ (('-' :: subNonWord (pyStrip t)).isPrefixOf
          ((replaceAllCons '-' (subNonWord (pyStrip t)) (baseNameOf m)
            ++ '-' :: subNonWord (pyStrip t)).drop i)) = true) :
    retitleFileName fmtDT m = getFileName fmtDT (some m) := by
  have hlowhyphen : lowerChar '-' = '-' := by decide
  have hlowdot : lowerChar '.' = '.' := by decide
  have hhas : hasTitle m = true := by simp [hasTitle, htitle, htne]
  have hr_low : List.map lowerChar (replaceAllCons '-' (subNonWord (pyStrip t)) (baseNameOf m))
      = replaceAllCons '-' (subNonWord (pyStrip t)) (baseNameOf m) := by
    rw [map_eq_self_iff_forall]
    intro c hc
    have hcb : c ∈ baseNameOf m := replaceAllFuel_subset _ _ _ _ c hc
    exact (map_eq_self_iff_forall lowerChar (baseNameOf m)).1 hlowb c hcb
  have hbase_low : List.map lowerChar (replaceAllCons '-' (subNonWord (pyStrip t)) (baseNameOf m)
      ++ '-' :: subNonWord (pyStrip t))
      = replaceAllCons '-' (subNonWord (pyStrip t)) (baseNameOf m)
        ++ '-' :: subNonWord (pyStrip t) := by
    rw [List.map_append, List.map_cons, hlowhyphen, hr_low]
    rw [show List.map lowerChar (subNonWord (pyStrip t)) = subNonWord (pyStrip t) from hlows]
  have hcore : getFileNameCore fmtDT m
      = (replaceAllCons '-' (subNonWord (pyStrip t)) (baseNameOf m)
          ++ '-' :: subNonWord (pyStrip t)) ++ '.' :: toLowerStr m.extension := by
    rw [getFileNameCore]
    dsimp only
    rw [if_pos hhas]
    simp only [htitle, Option.getD_some, hdate, horigin, hcam, List.nil_append]
    rw [intercalate_single]
    rw [toLowerStr, List.map_append, List.map_cons, hlowdot, hbase_low]
    rfl
  have hsplit : splitext (getFileNameCore fmtDT m)
      = (replaceAllCons '-' (subNonWord (pyStrip t)) (baseNameOf m)
          ++ '-' :: subNonWord (pyStrip t), '.' :: toLowerStr m.extension) := by
    rw [hcore]
    apply splitext_clean
    · simp
    · exact hdotext
    · intro hmem
      rcases List.mem_append.1 hmem with h | h
      · exact hslashb (replaceAllFuel_subset _ _ _ _ _ h)
      · rcases List.mem_cons.1 h with h | h
        · cases h
        · exact hslashs h
    · exact hslashext
    · refine ⟨'-', ?_, by decide⟩
      exact List.mem_append.2 (Or.inr (List.mem_cons_self _ _))
  have hbase2 : ∀ m' : Metadata,
      m'.base_name = replaceAllCons '-' (subNonWord (pyStrip t)) (baseNameOf m)
        ++ '-' :: subNonWord (pyStrip t) →
      m'.original_name = none →
      baseNameOf m'
      = replaceAllCons '-' (subNonWord (pyStrip t)) (baseNameOf m)
        ++ '-' :: subNonWord (pyStrip t) := by
    intro m' hb ho
    rw [baseNameOf, hb, ho]
    dsimp only
    simp only [stripDateStamp, hnodate]
    simp
  have hhas2 : hasTitle { m with
      base_name := replaceAllCons '-' (subNonWord (pyStrip t)) (baseNameOf m)
        ++ '-' :: subNonWord (pyStrip t)
      original_name := none } = true := by
    simp [hasTitle, htitle, htne]
  have hname2 : getFileNameCore fmtDT { m with
      base_name := replaceAllCons '-' (subNonWord (pyStrip t)) (baseNameOf m)
        ++ '-' :: subNonWord (pyStrip t)
      original_name := none }
      = getFileNameCore fmtDT m := by
    rw [getFileNameCore]
    dsimp only
    rw [if_pos hhas2]
    simp only [htitle, Option.getD_some, hdate, horigin, hcam, List.nil_append]
    rw [hbase2]
    · rw [replaceAllCons_append_pattern '-' (subNonWord (pyStrip t))
        (replaceAllCons '-' (subNonWord (pyStrip t)) (baseNameOf m)) honly]
      rw [intercalate_single]
      rw [hcore]
      rw [toLowerStr, List.map_append, List.map_cons, hlowdot, hbase_low]
      rfl
    · rfl
    · rfl
  simp only [retitleFileName, getFileName, hsplit]
  rw [hname2]

theorem get_file_name_title_idempotent_witness :
    mTitleWit.date_taken = none ∧
    mTitleWit.origin = none ∧
    mTitleWit.camera_model = none ∧
    mTitleWit.title = some "vacation".toList ∧
    (¬ ("vacation".toList : Str) = []) ∧
    toLowerStr (subNonWord (pyStrip "vacation".toList))
      = subNonWord (pyStrip "vacation".toList) ∧
    toLowerStr (baseNameOf mTitleWit) = baseNameOf mTitleWit ∧
    (¬ '.' ∈ toLowerStr mTitleWit.extension) ∧
    (¬ '/' ∈ toLowerStr mTitleWit.extension) ∧
    (¬ '/' ∈ baseNameOf mTitleWit) ∧
    (¬ '/' ∈ subNonWord (pyStrip "vacation".toList)) ∧
    matchesDateStamp
      (replaceAllCons '-' (subNonWord (pyStrip "vacation".toList)) (baseNameOf mTitleWit)
        ++ '-' :: subNonWord (pyStrip "vacation".toList)) = false ∧
    (∀ i, i < (replaceAllCons '-' (subNonWord (pyStrip "vacation".toList))
        (baseNameOf mTitleWit)).length →
      ¬ (('-' :: subNonWord (pyStrip "vacation".toList)).isPrefixOf
          ((replaceAllCons '-' (subNonWord (pyStrip "vacation".toList)) (baseNameOf mTitleWit)
            ++ '-' :: subNonWord (pyStrip "vacation".toList)).drop i)) = true) ∧
    retitleFileName (fun _ => ([] : Str)) mTitleWit
      = getFileName (fun _ => ([] : Str)) (some mTitleWit) :=
  ⟨by decide, by decide, by decide, by decide, by decide, by decide, by decide,
    by decide, by decide, by decide, by decide, by decide, by decide,
    get_file_name_title_idempotent (fun _ => ([] : Str)) mTitleWit "vacation".toList
      (by decide) (by decide) (by decide) (by decide) (by decide) (by decide)
      (by decide) (by decide) (by decide) (by decide) (by decide) (by decide)
      (by decide)⟩

/-- Claim C4, counterexample: `deep_merge` does not always let the incoming
value win when the two values are not both mappings.  With existing entry
`{k: 5}` and incoming `{k: {}}` the values are not both mappings (5 is a
scalar), so the claim requires the incoming `{}` to replace 5; the code
instead computes `deep_merge(5, {})`, whose item loop runs zero times and
returns 5, leaving the old scalar in place. -/
theorem deep_merge_counterexample :
    deepMerge (.obj [("k".toList, .num 5)]) (.obj [("k".toList, .obj [])])
      = .obj [("k".toList, .num 5)] ∧
    ¬ deepMerge (.obj [("k".toList, .num 5)]) (.obj [("k".toList, .obj [])])
      = .obj [("k".toList, .obj [])] := by
  constructor
  · rfl
  · intro h
    simp [deepMerge, mergeItems, Json.isMapping, Json.objSet, Json.objGet,
      alookup, aset] at h

/-- Claim C4, amended: for dict arguments (with the usual distinct-keys
well-formedness of the incoming dict), `deep_merge` merges key-by-key:
a key only in the existing mapping keeps its value (so sibling
`sources.<path>` records survive); for a key present in the incoming
mapping, if both values are mappings they are deep-merged recursively
(incoming wins on scalar conflicts), and otherwise the incoming value
replaces the existing one — except that an incoming *empty* mapping leaves
an existing non-null, non-mapping value unchanged
(`mergedValueSpec` states exactly this per-key result). -/
theorem deep_merge_amended (ds us : List (Str × Json)) (k : Str)
    (hnodup : keysNodupB us = true) (hwf : Json.wfListB us = true) :
    lookupJ (deepMerge (.obj ds) (.obj us)) k =
      (match alookup us k with
       | none => alookup ds k
       | some v => some (mergedValueSpec ((alookup ds k).getD .null) v)) := by
  have h : deepMerge (.obj ds) (.obj us) = mergeItems (.obj ds) us := rfl
  rw [h, lookupJ_mergeItems us ds k hnodup hwf]

/-- Witness for `deep_merge_amended`: adding a second `sources` path for an
already-present checksum key. -/
theorem deep_merge_amended_witness :
    keysNodupB [("h".toList, Json.obj [("sources".toList,
        Json.obj [("p2".toList, Json.null)])])] = true ∧
    Json.wfListB [("h".toList, Json.obj [("sources".toList,
        Json.obj [("p2".toList, Json.null)])])] = true ∧
    lookupJ (deepMerge
        (.obj [("h".toList, Json.obj [("sources".toList,
            Json.obj [("p1".toList, Json.null)])])])
        (.obj [("h".toList, Json.obj [("sources".toList,
            Json.obj [("p2".toList, Json.null)])])])) "h".toList =
      (match alookup [("h".toList, Json.obj [("sources".toList,
            Json.obj [("p2".toList, Json.null)])])] "h".toList with
       | none => alookup [("h".toList, Json.obj [("sources".toList,
            Json.obj [("p1".toList, Json.null)])])] "h".toList
       | some v => some (mergedValueSpec
          ((alookup [("h".toList, Json.obj [("sources".toList,
              Json.obj [("p1".toList, Json.null)])])] "h".toList).getD .null) v)) := by
  refine ⟨by decide, by decide, ?_⟩
  exact deep_merge_amended
    [("h".toList, Json.obj [("sources".toList, Json.obj [("p1".toList, Json.null)])])]
    [("h".toList, Json.obj [("sources".toList, Json.obj [("p2".toList, Json.null)])])]
    "h".toList (by decide) (by decide)

/-- Claim C9, counterexample: the merge-write-load round trip is not exact
on the entries the import pipeline actually writes.  `generate_manifest`
stores `date_taken` as a one-tuple holding a `struct_time`; `json.dump`
serializes both as JSON arrays, so after write-then-load the mapping holds
a plain (nested) list at `date_taken` where the merged in-memory mapping
holds a tuple — the loaded mapping is not equivalent to the written one. -/
theorem manifest_round_trip_counterexample :
    (lookupJ (mergeManifest c9m c9entry).entries "date_taken".toList).map Json.isTupB
      = some true ∧
    (lookupJ (loadFromFile (writeManifest c9enc [] (mergeManifest c9m c9entry) [] true true).1
        (writeManifest c9enc [] (mergeManifest c9m c9entry) [] true true).2).2.entries
      "date_taken".toList).map Json.isTupB = some false :=
  ⟨by decide, by decide⟩

/-- Claim C9, amended: merging an entry mapping into a manifest, writing it
(with any indent/overwrite options and any `utcnow` timestamp), then
loading the file that `write` produced, yields exactly the `json.dump`
image of the merged mapping: dicts, lists, strings, ints, bools and `None`
are reproduced exactly (and key order is preserved), while Python tuples
and `struct_time` values — in particular the `date_taken` one-tuple written
by `generate_manifest` — come back as JSON arrays of their elements. -/
theorem manifest_round_trip_amended (enc : TimeStruct → List Int) (store : FileStore)
    (m : ManifestS) (u : List (Str × Json)) (ts : Str) (indent overwrite : Bool) :
    (loadFromFile (writeManifest enc store (mergeManifest m u) ts indent overwrite).1
        (writeManifest enc store (mergeManifest m u) ts indent overwrite).2).2.entries
      = jsonDump enc (mergeManifest m u).entries := by
  simp [writeManifest, loadFromFile, alookup_aset_self]

/-- Claim C6: for every compiled pattern definition and every metadata
record without `date_taken` (and whose direct-field values and quoted
literals are not themselves the word `undated`), the component list built
by `get_folder_path` contains `undated` at most once: the first unsatisfied
temporal segment contributes it and the `flag_undated` guard suppresses
every later one. -/
theorem undated_at_most_once (fmt : Str → TimeStruct → Str) (m : Metadata)
    (defn : PathDef)
    (hdate : m.date_taken = none)
    (halbum : ¬ m.album = some "undated".toList)
    (hmake : ¬ m.camera_make = some "undated".toList)
    (hmodel : ¬ m.camera_model = some "undated".toList)
    (horigin : ¬ m.origin = some "undated".toList)
    (hlit : ∀ seg ∈ defn, ∀ a ∈ seg, isQuoted a.1 → ¬ dequote a.1 = "undated".toList) :
    List.count "undated".toList (folderPathParts fmt defn m) ≤ 1 := by
  have hfield := getField_ne_of_fields m "undated".toList halbum hmake hmodel horigin
  have h := evalSegments_undated_count fmt m hdate hfield defn false hlit
  simpa [folderPathParts] using h

/-- Witness for `undated_at_most_once`: the compiled form of the claim's
example pattern `%date/%date/%album` evaluated with no `date_taken` yields
one `undated` component, not two. -/
theorem undated_at_most_once_witness :
    compilePattern "%date/%date/%album".toList
      = .ok [[("date".toList, "%date".toList)],
             [("date".toList, "%date".toList)],
             [("album".toList, [])]] ∧
    folderPathParts (fun _ _ => [])
        [[("date".toList, "%date".toList)],
         [("date".toList, "%date".toList)],
         [("album".toList, [])]]
        { emptyMetadata with album := some "trip".toList }
      = ["undated".toList, "trip".toList] ∧
    List.count "undated".toList
      (folderPathParts (fun _ _ => [])
        [[("date".toList, "%date".toList)],
         [("date".toList, "%date".toList)],
         [("album".toList, [])]]
        { emptyMetadata with album := some "trip".toList }) ≤ 1 := by
  refine ⟨by decide, by decide, ?_⟩
  exact undated_at_most_once (fun _ _ => [])
    { emptyMetadata with album := some "trip".toList }
    [[("date".toList, "%date".toList)],
     [("date".toList, "%date".toList)],
     [("album".toList, [])]]
    rfl (by decide) (by decide) (by decide) (by decide) (by decide)

/-- Witness for `pattern_cache_amended` at the patterns `%album` / `%origin`. -/
theorem pattern_cache_amended_witness :
    compilePattern "%album".toList = .ok [[("album".toList, [])]] ∧
    (getFolderPathDefinition freshFS "%album".toList).2
      = .ok [[("album".toList, [])]] ∧
    (getFolderPathDefinition
        (getFolderPathDefinition freshFS "%album".toList).1 "%origin".toList).2
      = .ok [[("album".toList, [])]] := by
  refine ⟨by decide, ?_⟩
  have h := pattern_cache_amended "%album".toList "%origin".toList
    [[("album".toList, [])]] (by decide)
  exact h

end Elodie
